import Mathlib

/-!
Verification of the flux-calculation core of the ccfd finite-volume solver
(src/fluxCalculation.c and src/source.c) against its specification.

The C doubles are modelled as real numbers; C reciprocal-multiply idioms
(x * (1.0/y)) are written with the same structure, and divisions are real
divisions.  Compile-time configuration (the navierstokes preprocessor flag)
is modelled by providing both variants where the claims need them.  The gas
constant gam and the transport constants mu and Pr are global configuration
values in the C code; here they are passed as explicit parameters.
-/

noncomputable section

namespace Ccfd

/-- A 4-component vector of conserved quantities or fluxes
(indices RHO, MX, MY, E in the C code). -/
@[ext]
structure Vec4 where
  rho : ℝ
  mx : ℝ
  my : ℝ
  e : ℝ

/-- A primitive state (indices RHO, VX, VY, P in the C code). -/
@[ext]
structure Prim where
  rho : ℝ
  vx : ℝ
  vy : ℝ
  p : ℝ

/-- The derived constant gam1 = gam - 1 (set up from the gas constant at
initialization in the C code). -/
def gam1 (gam : ℝ) : ℝ := gam - 1

/-- The derived constant gam1q = 1 / (gam - 1). -/
def gam1q (gam : ℝ) : ℝ := 1 / (gam - 1)

/-- Total energy per volume from primitive quantities,
e = gam1q * p + 0.5 * rho * (vx*vx + vy*vy), the expression computed for
eL and eR in every kernel of fluxCalculation.c. -/
def consE (gam rho vx vy p : ℝ) : ℝ :=
  gam1q gam * p + 0.5 * rho * (vx * vx + vy * vy)

/-- Specific total enthalpy H = (e + p) / rho, as computed in the kernels. -/
def enthalpy (gam rho vx vy p : ℝ) : ℝ :=
  (consE gam rho vx vy p + p) / rho

/-- Speed of sound c = sqrt(gam * p / rho), as computed in the kernels. -/
def cSound (gam rho p : ℝ) : ℝ := Real.sqrt (gam * p / rho)

/-- The conservative state vector u = (rho, rho*vx, rho*vy, e) built by the
HLL-family kernels. -/
def consState (gam rho vx vy p : ℝ) : Vec4 :=
  ⟨rho, rho * vx, rho * vy, consE gam rho vx vy p⟩

/-- The physical (exact) Euler flux of a single state,
F(U) = (rho*vx, rho*vx^2+p, rho*vx*vy, vx*(e+p)).  This is the expression
the kernels compute for fL and fR, and also the flux the specification
calls the exact physical flux in its consistency property. -/
def physFlux (gam rho vx vy p : ℝ) : Vec4 :=
  ⟨rho * vx,
   rho * vx * vx + p,
   rho * vx * vy,
   vx * (consE gam rho vx vy p + p)⟩

/-- The type of the external exact Riemann solver: from left and right
density, velocity and pressure, the two sound speeds and the time it
returns the resolved star-region density, normal velocity and pressure.
It is an external collaborator of the flux library (exactRiemann.c is not
part of the flux core). -/
def RiemannSolver : Type := ℝ → ℝ → ℝ → ℝ → ℝ → ℝ → ℝ → ℝ → ℝ → ℝ × ℝ × ℝ

/-- Godunov flux (flux_god in fluxCalculation.c): the exact Riemann solver
resolves the star state, the tangential velocity is upwinded by the sign of
the resolved normal velocity, and the flux is the physical flux of the
resolved primitive state. -/
def flux_god (riemann : RiemannSolver) (gam : ℝ)
    (rhoL rhoR vxL vxR vyL vyR pL pR : ℝ) : Vec4 :=
  let cL := cSound gam rhoL pL
  let cR := cSound gam rhoR pR
  let res := riemann rhoL rhoR vxL vxR pL pR cL cR 0
  let rho := res.1
  let vx := res.2.1
  let p := res.2.2
  let vy := if vx > 0 then vyL else vyR
  ⟨rho * vx,
   rho * vx * vx + p,
   rho * vx * vy,
   vx * (gam / gam1 gam * p + 0.5 * rho * (vx * vx + vy * vy))⟩

/-- The square-root-of-density weighted Roe average
(q_R*sqrt(rho_R) + q_L*sqrt(rho_L)) / (sqrt(rho_L) + sqrt(rho_R)), the
pattern used for vxBar, vyBar and Hbar in flux_roe and for uM, vM, HM in
the HLL-family kernels. -/
def roeAvg (rhoL rhoR qL qR : ℝ) : ℝ :=
  (Real.sqrt rhoR * qR + Real.sqrt rhoL * qL) * (1 / (Real.sqrt rhoL + Real.sqrt rhoR))

/-- Roe-averaged normal velocity. -/
def roe_vxBar (rhoL rhoR vxL vxR : ℝ) : ℝ := roeAvg rhoL rhoR vxL vxR

/-- Roe-averaged specific enthalpy. -/
def roe_Hbar (gam rhoL rhoR vxL vxR vyL vyR pL pR : ℝ) : ℝ :=
  roeAvg rhoL rhoR (enthalpy gam rhoL vxL vyL pL) (enthalpy gam rhoR vxR vyR pR)

/-- Roe-averaged sound speed
cBar = sqrt(gam1 * (Hbar - 0.5*(vxBar^2 + vyBar^2))). -/
def roe_cBar (gam rhoL rhoR vxL vxR vyL vyR pL pR : ℝ) : ℝ :=
  Real.sqrt (gam1 gam * (roe_Hbar gam rhoL rhoR vxL vxR vyL vyR pL pR
    - 0.5 * (roe_vxBar rhoL rhoR vxL vxR * roe_vxBar rhoL rhoR vxL vxR
           + roe_vxBar rhoL rhoR vyL vyR * roe_vxBar rhoL rhoR vyL vyR)))

/-- The Harten entropy fix applied to a mean eigenvalue a with spread da:
blend to a quadratic profile when |a| < da, else take |a|. -/
def entropyFix (a da : ℝ) : ℝ :=
  if |a| < da then 0.5 * (a * a / da + da) else |a|

/-- The eigenvalue spread used by the entropy fix of flux_roe:
da = max(max(0, a - al), ar - a). -/
def roe_da (a al ar : ℝ) : ℝ := max (max 0 (a - al)) (ar - a)

/-- Roe flux (flux_roe in fluxCalculation.c).  The local variables gam1 and
gam2 of the C function (which shadow the global constant gam1) are named w1
and w2 here; w3 and w4 are the C locals gam3 and gam4. -/
def flux_roe (gam : ℝ) (rhoL rhoR vxL vxR vyL vyR pL pR : ℝ) : Vec4 :=
  let mxL := rhoL * vxL
  let mxR := rhoR * vxR
  let myL := rhoL * vyL
  let myR := rhoR * vyR
  let eR := consE gam rhoR vxR vyR pR
  let eL := consE gam rhoL vxL vyL pL
  let vxBar := roe_vxBar rhoL rhoR vxL vxR
  let vyBar := roe_vxBar rhoL rhoR vyL vyR
  let Hbar := roe_Hbar gam rhoL rhoR vxL vxR vyL vyR pL pR
  let cBar := roe_cBar gam rhoL rhoR vxL vxR vyL vyR pL pR
  let a0 := vxBar - cBar
  let a1 := vxBar
  let a3 := vxBar + cBar
  let r1 : Vec4 := ⟨1, a0, vyBar, Hbar - vxBar * cBar⟩
  let r2 : Vec4 := ⟨1, vxBar, vyBar, 0.5 * (vxBar * vxBar + vyBar * vyBar)⟩
  let r3 : Vec4 := ⟨0, 0, 1, vyBar⟩
  let r4 : Vec4 := ⟨1, a3, vyBar, Hbar + vxBar * cBar⟩
  let delRho := rhoR - rhoL
  let delMx := mxR - mxL
  let delMy := myR - myL
  let delE := eR - eL
  let delEq := delE - (delMy - vyBar * delRho) * vyBar
  let cBarQ := 1 / cBar
  let w2 := - gam1 gam * cBarQ * cBarQ * (delRho * (vxBar * vxBar - Hbar)
      + delEq - delMx * vxBar)
  let w1 := - 0.5 * cBarQ * (delMx - delRho * (vxBar + cBar)) - 0.5 * w2
  let w4 := delRho - w1 - w2
  let w3 := delMy - vyBar * delRho
  let fR := physFlux gam rhoR vxR vyR pR
  let fL := physFlux gam rhoL vxL vyL pL
  let cL := cSound gam rhoL pL
  let cR := cSound gam rhoR pR
  let A0 := entropyFix a0 (roe_da a0 (vxL - cL) (vxR - cR))
  let A1 := entropyFix a1 (roe_da a1 vxL vxR)
  let A2 := entropyFix a1 (roe_da a1 vxL vxR)
  let A3 := entropyFix a3 (roe_da a3 (vxL + cL) (vxR + cR))
  ⟨0.5 * (fR.rho + fL.rho - w1 * |A0| * r1.rho - w2 * |A1| * r2.rho
      - w3 * |A2| * r3.rho - w4 * |A3| * r4.rho),
   0.5 * (fR.mx + fL.mx - w1 * |A0| * r1.mx - w2 * |A1| * r2.mx
      - w3 * |A2| * r3.mx - w4 * |A3| * r4.mx),
   0.5 * (fR.my + fL.my - w1 * |A0| * r1.my - w2 * |A1| * r2.my
      - w3 * |A2| * r3.my - w4 * |A3| * r4.my),
   0.5 * (fR.e + fL.e - w1 * |A0| * r1.e - w2 * |A1| * r2.e
      - w3 * |A2| * r3.e - w4 * |A3| * r4.e)⟩

/-- The left-going signal-speed estimate of flux_hll and flux_hllc:
alm = min(vxL - cL, uM - cM), the minimum of the physical and the
Roe-averaged first eigenvalue. -/
def hll_alm (gam rhoL rhoR vxL vxR vyL vyR pL pR : ℝ) : ℝ :=
  min (vxL - cSound gam rhoL pL)
    (roe_vxBar rhoL rhoR vxL vxR - roe_cBar gam rhoL rhoR vxL vxR vyL vyR pL pR)

/-- The right-going signal-speed estimate of flux_hll and flux_hllc:
arp = max(vxR + cR, uM + cM), the maximum of the physical and the
Roe-averaged last eigenvalue. -/
def hll_arp (gam rhoL rhoR vxL vxR vyL vyR pL pR : ℝ) : ℝ :=
  max (vxR + cSound gam rhoR pR)
    (roe_vxBar rhoL rhoR vxL vxR + roe_cBar gam rhoL rhoR vxL vxR vyL vyR pL pR)

/-- HLL flux (flux_hll in fluxCalculation.c). -/
def flux_hll (gam : ℝ) (rhoL rhoR vxL vxR vyL vyR pL pR : ℝ) : Vec4 :=
  let uL := consState gam rhoL vxL vyL pL
  let uR := consState gam rhoR vxR vyR pR
  let fL := physFlux gam rhoL vxL vyL pL
  let fR := physFlux gam rhoR vxR vyR pR
  let arp := hll_arp gam rhoL rhoR vxL vxR vyL vyR pL pR
  let alm := hll_alm gam rhoL rhoR vxL vxR vyL vyR pL pR
  let arpAlmQ := 1 / (arp - alm)
  if alm > 0 then fL
  else if arp < 0 then fR
  else
    ⟨(arp * fL.rho - alm * fR.rho) * arpAlmQ + (arp * alm) * arpAlmQ * (uR.rho - uL.rho),
     (arp * fL.mx - alm * fR.mx) * arpAlmQ + (arp * alm) * arpAlmQ * (uR.mx - uL.mx),
     (arp * fL.my - alm * fR.my) * arpAlmQ + (arp * alm) * arpAlmQ * (uR.my - uL.my),
     (arp * fL.e - alm * fR.e) * arpAlmQ + (arp * alm) * arpAlmQ * (uR.e - uL.e)⟩

/-- The Einfeldt wave-speed correction term of flux_hlle. -/
def hlle_d (gam rhoL rhoR vxL vxR pL pR : ℝ) : ℝ :=
  let rhoSqL := Real.sqrt rhoL
  let rhoSqR := Real.sqrt rhoR
  let cL := cSound gam rhoL pL
  let cR := cSound gam rhoR pR
  let eta2 := 0.5 * rhoSqR * rhoSqL / (rhoSqR + rhoSqL) / (rhoSqR + rhoSqL)
  Real.sqrt ((rhoSqR * cR * cR + rhoSqL * cL * cL) * (1 / (rhoSqL + rhoSqR))
      + eta2 * (vxR - vxL) * (vxR - vxL))

/-- HLLE flux (flux_hlle in fluxCalculation.c): the HLL structure with the
Einfeldt signal speeds. -/
def flux_hlle (gam : ℝ) (rhoL rhoR vxL vxR vyL vyR pL pR : ℝ) : Vec4 :=
  let uL := consState gam rhoL vxL vyL pL
  let uR := consState gam rhoR vxR vyR pR
  let fL := physFlux gam rhoL vxL vyL pL
  let fR := physFlux gam rhoR vxR vyR pR
  let d := hlle_d gam rhoL rhoR vxL vxR pL pR
  let uM := roe_vxBar rhoL rhoR vxL vxR
  let arp := max (vxR + cSound gam rhoR pR) (uM + d)
  let alm := min (vxL - cSound gam rhoL pL) (uM - d)
  let arpAlmQ := 1 / (arp - alm)
  if alm > 0 then fL
  else if arp < 0 then fR
  else
    ⟨(arp * fL.rho - alm * fR.rho) * arpAlmQ + (arp * alm) * arpAlmQ * (uR.rho - uL.rho),
     (arp * fL.mx - alm * fR.mx) * arpAlmQ + (arp * alm) * arpAlmQ * (uR.mx - uL.mx),
     (arp * fL.my - alm * fR.my) * arpAlmQ + (arp * alm) * arpAlmQ * (uR.my - uL.my),
     (arp * fL.e - alm * fR.e) * arpAlmQ + (arp * alm) * arpAlmQ * (uR.e - uL.e)⟩

/-- The contact-wave speed estimate of flux_hllc. -/
def hllc_as (gam rhoL rhoR vxL vxR vyL vyR pL pR : ℝ) : ℝ :=
  let alm := hll_alm gam rhoL rhoR vxL vxR vyL vyR pL pR
  let arp := hll_arp gam rhoL rhoR vxL vxR vyL vyR pL pR
  (pR - pL + rhoL * vxL * (alm - vxL) - rhoR * vxR * (arp - vxR))
    / (rhoL * (alm - vxL) - rhoR * (arp - vxR))

/-- The reconstructed star state of flux_hllc on one side: from the outer
wave speed s, the contact speed as and the one-sided state. -/
def hllc_star (gam rho vx vy p s as : ℝ) : Vec4 :=
  let fac := rho * (s - vx) / (s - as)
  ⟨fac,
   as * fac,
   vy * fac,
   fac * (consE gam rho vx vy p / rho + (as - vx) * (as + p / (rho * (s - vx))))⟩

/-- HLLC flux (flux_hllc in fluxCalculation.c). -/
def flux_hllc (gam : ℝ) (rhoL rhoR vxL vxR vyL vyR pL pR : ℝ) : Vec4 :=
  let uL := consState gam rhoL vxL vyL pL
  let uR := consState gam rhoR vxR vyR pR
  let fL := physFlux gam rhoL vxL vyL pL
  let fR := physFlux gam rhoR vxR vyR pR
  let arp := hll_arp gam rhoL rhoR vxL vxR vyL vyR pL pR
  let alm := hll_alm gam rhoL rhoR vxL vxR vyL vyR pL pR
  if alm > 0 then fL
  else if arp < 0 then fR
  else
    let as := hllc_as gam rhoL rhoR vxL vxR vyL vyR pL pR
    if alm ≤ 0 ∧ as ≥ 0 then
      let us := hllc_star gam rhoL vxL vyL pL alm as
      ⟨fL.rho + alm * (us.rho - uL.rho),
       fL.mx + alm * (us.mx - uL.mx),
       fL.my + alm * (us.my - uL.my),
       fL.e + alm * (us.e - uL.e)⟩
    else
      let us := hllc_star gam rhoR vxR vyR pR arp as
      ⟨fR.rho + arp * (us.rho - uR.rho),
       fR.mx + arp * (us.mx - uR.mx),
       fR.my + arp * (us.my - uR.my),
       fR.e + arp * (us.e - uR.e)⟩

/-- Lax-Friedrichs flux (flux_lxf in fluxCalculation.c). -/
def flux_lxf (gam : ℝ) (rhoL rhoR vxL vxR vyL vyR pL pR : ℝ) : Vec4 :=
  let cL := cSound gam rhoL pL
  let cR := cSound gam rhoR pR
  let a := max (|vxR| + cR) (|vxL| + cL)
  let eL := consE gam rhoL vxL vyL pL
  let eR := consE gam rhoR vxR vyR pR
  let fL := physFlux gam rhoL vxL vyL pL
  let fR := physFlux gam rhoR vxR vyR pR
  ⟨0.5 * (fR.rho + fL.rho) - 0.5 * a * (rhoR - rhoL),
   0.5 * (fR.mx + fL.mx) - 0.5 * a * (rhoR * vxR - rhoL * vxL),
   0.5 * (fR.my + fL.my) - 0.5 * a * (rhoR * vyR - rhoL * vyL),
   0.5 * (fR.e + fL.e) - 0.5 * a * (eR - eL)⟩

/-- Steger-Warming flux (flux_stw in fluxCalculation.c). -/
def flux_stw (gam : ℝ) (rhoL rhoR vxL vxR vyL vyR pL pR : ℝ) : Vec4 :=
  let cL := cSound gam rhoL pL
  let cR := cSound gam rhoR pR
  let gam2q := 0.5 / gam
  let ap0 := max (vxL - cL) 0
  let ap1 := max vxL 0
  let ap3 := max (vxL + cL) 0
  let am0 := min (vxR - cR) 0
  let am1 := min vxR 0
  let am3 := min (vxR + cR) 0
  let fp0 := rhoL * gam2q * (2 * gam1 gam * ap1 + ap0 + ap3)
  let fp1 := fp0 * vxL + (ap3 - ap0) * rhoL * cL * gam2q
  let fp2 := fp0 * vyL
  let fp3 := fp0 * 0.5 * (vxL * vxL + vyL * vyL) + (ap3 - ap0) *
      rhoL * cL * vxL * gam2q + (ap3 + ap0) * rhoL * cL * cL * gam2q * gam1q gam
  let fm0 := rhoR * gam2q * (2 * gam1 gam * am1 + am0 + am3)
  let fm1 := fm0 * vxR + (am3 - am0) * rhoR * cR * gam2q
  let fm2 := fm0 * vyR
  let fm3 := fm0 * 0.5 * (vxR * vxR + vyR * vyR) + (am3 - am0) *
      rhoR * cR * vxR * gam2q + (am3 + am0) * rhoR * cR * cR * gam2q * gam1q gam
  ⟨fp0 + fm0, fp1 + fm1, fp2 + fm2, fp3 + fm3⟩

/-- Central flux (flux_cen in fluxCalculation.c): the arithmetic mean of
the two physical fluxes, with no dissipation. -/
def flux_cen (gam : ℝ) (rhoL rhoR vxL vxR vyL vyR pL pR : ℝ) : Vec4 :=
  let fL := physFlux gam rhoL vxL vyL pL
  let fR := physFlux gam rhoR vxR vyR pR
  ⟨0.5 * (fL.rho + fR.rho),
   0.5 * (fL.mx + fR.mx),
   0.5 * (fL.my + fR.my),
   0.5 * (fL.e + fR.e)⟩

/-- The split mass-flux and pressure terms (uPlus, pPlus) of flux_ausmd. -/
def ausmd_plus (alphaL cm vxL pL : ℝ) : ℝ × ℝ :=
  if |vxL| < cm then
    (0.25 * alphaL * (vxL + cm) * (vxL + cm) / cm
       + 0.5 * (1 - alphaL) * (vxL + |vxL|),
     0.25 * pL * (vxL + cm) * (vxL + cm) / (cm * cm) * (2 - vxL / cm))
  else
    (0.5 * (vxL + |vxL|),
     0.5 * pL * (vxL + |vxL|) / vxL)

/-- The split mass-flux and pressure terms (uMinus, pMinus) of flux_ausmd. -/
def ausmd_minus (alphaR cm vxR pR : ℝ) : ℝ × ℝ :=
  if |vxR| < cm then
    (- 0.25 * alphaR * (vxR - cm) * (vxR - cm) / cm
       + 0.5 * (1 - alphaR) * (vxR - |vxR|),
     0.25 * pR * (vxR - cm) * (vxR - cm) / (cm * cm) * (2 + vxR / cm))
  else
    (0.5 * (vxR - |vxR|),
     0.5 * pR * (vxR - |vxR|) / vxR)

/-- AUSMD flux (flux_ausmd in fluxCalculation.c). -/
def flux_ausmd (gam : ℝ) (rhoL rhoR vxL vxR vyL vyR pL pR : ℝ) : Vec4 :=
  let HL := enthalpy gam rhoL vxL vyL pL
  let HR := enthalpy gam rhoR vxR vyR pR
  let cm := max (cSound gam rhoL pL) (cSound gam rhoR pR)
  let alphaL := 2 * pL / rhoL / (pL / rhoL + pR / rhoR)
  let alphaR := 2 * pR / rhoR / (pL / rhoL + pR / rhoR)
  let up := ausmd_plus alphaL cm vxL pL
  let um := ausmd_minus alphaR cm vxR pR
  let rhoU := up.1 * rhoL + um.1 * rhoR
  ⟨rhoU,
   0.5 * (rhoU * (vxR + vxL) - |rhoU| * (vxR - vxL)) + (up.2 + um.2),
   0.5 * (rhoU * (vyR + vyL) - |rhoU| * (vyR - vyL)),
   0.5 * (rhoU * (HR + HL) - |rhoU| * (HR - HL))⟩

/-- The split terms (uPlus, pPlus) of flux_ausmdv. -/
def ausmdv_plus (alphaL cm vxL pL : ℝ) : ℝ × ℝ :=
  if |vxL| < cm then
    (if vxL > 0 then vxL + alphaL * (vxL - cm) * (vxL - cm)
     else alphaL * (vxL + cm) * (vxL + cm),
     0.25 * pL * (vxL + cm) * (vxL + cm) / (cm * cm) * (2 - vxL / cm))
  else
    (if vxL > 0 then vxL else 0,
     if vxL > 0 then pL else 0)

/-- The split terms (uMinus, pMinus) of flux_ausmdv.  The subsonic
vxR > 0 branch reproduces the C code exactly, including its documented bug
of using vxL instead of vxR there. -/
def ausmdv_minus (alphaR cm vxL vxR pR : ℝ) : ℝ × ℝ :=
  if |vxR| < cm then
    (if vxR > 0 then - alphaR * (vxL - cm) * (vxL - cm)
     else vxR - alphaR * (vxR + cm) * (vxR + cm),
     0.25 * pR * (vxR - cm) * (vxR - cm) / (cm * cm) * (2 + vxR / cm))
  else
    (if vxR > 0 then 0 else vxR,
     if vxR > 0 then 0 else pR)

/-- AUSMDV flux (flux_ausmdv in fluxCalculation.c), flagged in the source
as producing incorrect output. -/
def flux_ausmdv (gam : ℝ) (rhoL rhoR vxL vxR vyL vyR pL pR : ℝ) : Vec4 :=
  let HL := enthalpy gam rhoL vxL vyL pL
  let HR := enthalpy gam rhoR vxR vyR pR
  let cL := cSound gam rhoL pL
  let cR := cSound gam rhoR pR
  let cm := max cL cR
  let alphaL := 2 * pL / rhoL / (pL / rhoL + pR / rhoR)
  let alphaR := 2 * pR / rhoR / (pL / rhoL + pR / rhoR)
  let up := ausmdv_plus alphaL cm vxL pL
  let um := ausmdv_minus alphaR cm vxL vxR pR
  let rhoU := up.1 * rhoL + um.1 * rhoR
  let s := min 1 (10 * |pR - pL| / min pR pL)
  let rhoUsq := 0.5 * (1 + s) * (rhoL * vxL * up.1 + rhoR * vxR * um.1)
      + 0.25 * (1 - s) * (rhoU * (vxR + vxL) - |rhoU| * (vxR - vxL))
  let base : Vec4 :=
    ⟨rhoU,
     rhoUsq + (up.2 + um.2),
     0.5 * (rhoU * (vyR + vyL) - |rhoU| * (vyR - vyL)),
     0.5 * (rhoU * (HR + HL) - |rhoU| * (HR - HL))⟩
  let tmpa := vxL - cL < 0 ∧ vxR - cR > 0
  let tmpb := vxL + cL < 0 ∧ vxR + cR > 0
  let fixA : Vec4 :=
    if tmpa ∧ ¬ tmpb then
      ⟨base.rho - 0.125 * ((vxR - cR) - (vxL - cL)) * (rhoR * 1 - rhoL * 1),
       base.mx - 0.125 * ((vxR - cR) - (vxL - cL)) * (rhoR * vxR - rhoL * vxL),
       base.my - 0.125 * ((vxR - cR) - (vxL - cL)) * (rhoR * vyR - rhoL * vyL),
       base.e - 0.125 * ((vxR - cR) - (vxL - cL)) * (rhoR * HR - rhoL * HL)⟩
    else base
  if ¬ tmpa ∧ tmpb then
    ⟨fixA.rho - 0.125 * ((vxR + cR) - (vxL + cL)) * (rhoR * 1 - rhoL * 1),
     fixA.mx - 0.125 * ((vxR + cR) - (vxL + cL)) * (rhoR * vxR - rhoL * vxL),
     fixA.my - 0.125 * ((vxR + cR) - (vxL + cL)) * (rhoR * vyR - rhoL * vyL),
     fixA.e - 0.125 * ((vxR + cR) - (vxL + cL)) * (rhoR * HR - rhoL * HL)⟩
  else fixA

/-- The one-sided split flux of flux_vanleer from the left state. -/
def vanleer_fp (gam rhoL vxL vyL pL : ℝ) : Vec4 :=
  let cL := cSound gam rhoL pL
  let HL := enthalpy gam rhoL vxL vyL pL
  let ML := vxL / cL
  if ML > 1 then
    let f0 := rhoL * vxL
    ⟨f0, f0 * vxL + pL, f0 * vyL, f0 * HL⟩
  else if ML < 1 ∧ ML > -1 then
    let cx := gam1 gam * vxL + 2 * cL
    let f0 := 0.25 * rhoL * cL * (ML + 1) * (ML + 1)
    let f1 := f0 * cx / gam
    let f2 := f0 * vyL
    ⟨f0, f1, f2, 0.5 * (f1 * cx * gam / (gam * gam - 1) + f2 * vyL)⟩
  else ⟨0, 0, 0, 0⟩

/-- The one-sided split flux of flux_vanleer from the right state. -/
def vanleer_fm (gam rhoR vxR vyR pR : ℝ) : Vec4 :=
  let cR := cSound gam rhoR pR
  let HR := enthalpy gam rhoR vxR vyR pR
  let MR := vxR / cR
  if MR < -1 then
    let f0 := rhoR * vxR
    ⟨f0, f0 * vxR + pR, f0 * vyR, f0 * HR⟩
  else if MR < 1 ∧ MR > -1 then
    let cx := gam1 gam * vxR - 2 * cR
    let f0 := - 0.25 * rhoR * cR * (1 - MR) * (1 - MR)
    let f1 := f0 * cx / gam
    let f2 := f0 * vyR
    ⟨f0, f1, f2, 0.5 * (f1 * cx * gam / (gam * gam - 1) + f2 * vyR)⟩
  else ⟨0, 0, 0, 0⟩

/-- Van Leer flux (flux_vanleer in fluxCalculation.c). -/
def flux_vanleer (gam : ℝ) (rhoL rhoR vxL vxR vyL vyR pL pR : ℝ) : Vec4 :=
  let fp := vanleer_fp gam rhoL vxL vyL pL
  let fm := vanleer_fm gam rhoR vxR vyR pR
  ⟨fp.rho + fm.rho, fp.mx + fm.mx, fp.my + fm.my, fp.e + fm.e⟩

/-- Modelled from the spec: the scheme identifier constants GOD .. VANLEER
compared against iFlux come from equation.h, which is not among the
provided sources; the spec describes them as a small closed set of scheme
identifiers, modelled here as distinct integers. -/
def GOD : Int := 1

/-- Scheme identifier for the Roe kernel. -/
def ROE : Int := 2

/-- Scheme identifier for the HLL kernel. -/
def HLL : Int := 3

/-- Scheme identifier for the HLLE kernel. -/
def HLLE : Int := 4

/-- Scheme identifier for the HLLC kernel. -/
def HLLC : Int := 5

/-- Scheme identifier for the Lax-Friedrichs kernel. -/
def LXF : Int := 6

/-- Scheme identifier for the Steger-Warming kernel. -/
def STW : Int := 7

/-- Scheme identifier for the central kernel. -/
def CEN : Int := 8

/-- Scheme identifier for the AUSMD kernel. -/
def AUSMD : Int := 9

/-- Scheme identifier for the AUSMDV kernel. -/
def AUSMDV : Int := 10

/-- Scheme identifier for the van Leer kernel. -/
def VANLEER : Int := 11

/-- The closed set of scheme identifiers recognized by the switch statement
of convectiveFlux (eleven cases in fluxCalculation.c). -/
def fluxSchemes : List Int :=
  [GOD, ROE, HLL, HLLE, HLLC, LXF, STW, CEN, AUSMD, AUSMDV, VANLEER]

/-- The flux dispatch (convectiveFlux in fluxCalculation.c): a switch on
the configured scheme identifier iFlux.  The C switch has no default case,
so an unrecognized identifier leaves the output array fluxLoc exactly as
the caller passed it; fluxLoc is the value of that array on entry. -/
def convectiveFlux (iFlux : Int) (riemann : RiemannSolver) (gam : ℝ)
    (rhoL rhoR vxL vxR vyL vyR pL pR : ℝ) (fluxLoc : Vec4) : Vec4 :=
  if iFlux = GOD then flux_god riemann gam rhoL rhoR vxL vxR vyL vyR pL pR
  else if iFlux = ROE then flux_roe gam rhoL rhoR vxL vxR vyL vyR pL pR
  else if iFlux = HLL then flux_hll gam rhoL rhoR vxL vxR vyL vyR pL pR
  else if iFlux = HLLE then flux_hlle gam rhoL rhoR vxL vxR vyL vyR pL pR
  else if iFlux = HLLC then flux_hllc gam rhoL rhoR vxL vxR vyL vyR pL pR
  else if iFlux = LXF then flux_lxf gam rhoL rhoR vxL vxR vyL vyR pL pR
  else if iFlux = STW then flux_stw gam rhoL rhoR vxL vxR vyL vyR pL pR
  else if iFlux = CEN then flux_cen gam rhoL rhoR vxL vxR vyL vyR pL pR
  else if iFlux = AUSMD then flux_ausmd gam rhoL rhoR vxL vxR vyL vyR pL pR
  else if iFlux = AUSMDV then flux_ausmdv gam rhoL rhoR vxL vxR vyL vyR pL pR
  else if iFlux = VANLEER then flux_vanleer gam rhoL rhoR vxL vxR vyL vyR pL pR
  else fluxLoc

/-- The diffusive flux (diffusionFlux in fluxCalculation.c, navierstokes
mode): from the mean state and the two directional gradients it fills the
momentum and energy components of the two output vectors f and g; the
density components are never assigned (the assignments are commented out
in the source), so they keep the values the caller passed in. -/
def diffusionFlux (gam mu Pr : ℝ) (state gradX gradY : Prim) (f g : Vec4) :
    Vec4 × Vec4 :=
  (⟨f.rho,
    (4 / 3 * gradX.vx - 2 / 3 * gradY.vy) * mu,
    (gradY.vx + gradX.vy) * mu,
    (4 / 3 * state.vx * gradX.vx - 2 / 3 * state.vx * gradY.vy
      + (gradX.vy + gradY.vx) * state.vy
      + gam / (gam1 gam * Pr * state.rho * state.rho)
      * (state.rho * gradX.p - state.p * gradX.rho)) * mu⟩,
   ⟨g.rho,
    (gradY.vx + gradX.vy) * mu,
    (4 / 3 * gradY.vy - 2 / 3 * gradX.vx) * mu,
    (4 / 3 * state.vy * gradY.vy - 2 / 3 * state.vy * gradX.vx
      + (gradY.vx + gradX.vy) * state.vx
      + gam / (gam1 gam * Pr * state.rho * state.rho)
      * (state.rho * gradY.p - state.p * gradY.rho)) * mu⟩)

/-- The rotation of a primitive state into the face-normal frame done by
fluxCalculation for each of the two adjacent states. -/
def rotateToNormal (nx ny : ℝ) (s : Prim) : Prim :=
  ⟨s.rho, nx * s.vx + ny * s.vy, - ny * s.vx + nx * s.vy, s.p⟩

/-- The per-side body of fluxCalculation in Euler mode: rotate the two
states into the normal frame, dispatch the convective flux, rotate the
momentum components back to the global frame, and scale by the face
length. -/
def sideFlux (iFlux : Int) (riemann : RiemannSolver) (gam nx ny len : ℝ)
    (stateL stateR : Prim) : Vec4 :=
  let pVarL := rotateToNormal nx ny stateL
  let pVarR := rotateToNormal nx ny stateR
  let fluxConv := convectiveFlux iFlux riemann gam pVarL.rho pVarR.rho
      pVarL.vx pVarR.vx pVarL.vy pVarR.vy pVarL.p pVarR.p ⟨0, 0, 0, 0⟩
  ⟨fluxConv.rho * len,
   (nx * fluxConv.mx - ny * fluxConv.my) * len,
   (ny * fluxConv.mx + nx * fluxConv.my) * len,
   fluxConv.e * len⟩

/-- The per-side body of fluxCalculation in navierstokes mode: the Euler
path plus the projection of the diffusive flux onto the face normal,
subtracted before the length scaling.  The mean state and the corrected
gradients are taken as inputs, as produced by the gradient part of the
loop body. -/
def sideFluxNS (iFlux : Int) (riemann : RiemannSolver)
    (gam mu Pr nx ny len : ℝ) (stateL stateR stateMean gradUx gradUy : Prim) :
    Vec4 :=
  let pVarL := rotateToNormal nx ny stateL
  let pVarR := rotateToNormal nx ny stateR
  let fluxConv := convectiveFlux iFlux riemann gam pVarL.rho pVarR.rho
      pVarL.vx pVarR.vx pVarL.vy pVarR.vy pVarL.p pVarR.p ⟨0, 0, 0, 0⟩
  let fluxDiff := diffusionFlux gam mu Pr stateMean gradUx gradUy
      ⟨0, 0, 0, 0⟩ ⟨0, 0, 0, 0⟩
  ⟨(fluxConv.rho - (fluxDiff.1.rho * nx + fluxDiff.2.rho * ny)) * len,
   (nx * fluxConv.mx - ny * fluxConv.my
      - (fluxDiff.1.mx * nx + fluxDiff.2.mx * ny)) * len,
   (ny * fluxConv.mx + nx * fluxConv.my
      - (fluxDiff.1.my * nx + fluxDiff.2.my * ny)) * len,
   (fluxConv.e - (fluxDiff.1.e * nx + fluxDiff.2.e * ny)) * len⟩

/-- The pair of accumulators written by one iteration of the parallel loop
of fluxCalculation in Euler mode: the flux of the side itself and the flux
assigned to its paired connection side. -/
def sideFluxPair (iFlux : Int) (riemann : RiemannSolver) (gam nx ny len : ℝ)
    (stateL stateR : Prim) : Vec4 × Vec4 :=
  let f := sideFlux iFlux riemann gam nx ny len stateL stateR
  (f, ⟨- f.rho, - f.mx, - f.my, - f.e⟩)

/-- The pair of accumulators written by one iteration of the parallel loop
of fluxCalculation in navierstokes mode. -/
def sideFluxPairNS (iFlux : Int) (riemann : RiemannSolver)
    (gam mu Pr nx ny len : ℝ) (stateL stateR stateMean gradUx gradUy : Prim) :
    Vec4 × Vec4 :=
  let f := sideFluxNS iFlux riemann gam mu Pr nx ny len stateL stateR
      stateMean gradUx gradUy
  (f, ⟨- f.rho, - f.mx, - f.my, - f.e⟩)

/-- The source-term evaluation (evalSource in source.c).  The switch on
iSource has a single case 1 that fully overwrites the output array; any
other value leaves the output array untouched, so the function takes and
returns the accumulator.  The flag ns selects the navierstokes variant of
the energy component (the source file builds one of the two under a
preprocessor flag). -/
def evalSource (gam mu Pr : ℝ) (ns : Bool) (iSource : Int)
    (x : ℝ × ℝ) (time : ℝ) (source : Vec4) : Vec4 :=
  if iSource = 1 then
    let freq : ℝ := 1
    let amp : ℝ := 0.1
    let om := Real.pi * freq
    let a := 2 * Real.pi
    let tmp1 := Real.cos (om * (x.1 + x.2) - a * time)
    let tmp2 := Real.sin (2 * (om * (x.1 + x.2) - a * time))
    let tmp3 := Real.sin (om * (x.1 + x.2) - a * time)
    let sRho := (- a + 2 * om) * tmp1
    let sVx := (- a + om * (gam * 3 - 1)) * tmp1 + amp * om * gam1 gam * tmp2
    let sE :=
      if ns then
        ((2 + gam * 6) * om - 4 * a) * tmp1 + amp * (2 * om * gam - a) * tmp2
          + 2 * mu * gam * om * om / Pr * tmp3
      else
        ((2 + gam * 6) * om - 4 * a) * tmp1 + amp * (2 * om * gam - a) * tmp2
    ⟨sRho * amp, sVx * amp, sVx * amp, sE * amp⟩
  else source

/-- The per-cell body of calcSource in source.c: the source accumulator of
the cell is first set to zero, then the quadrature sum of the evaluated
source is accumulated over the Gauss points.  The local array source is
declared once and threaded through the Gauss-point loop, so an
unrecognized iSource leaves it at its previous value.  The argument prev
is the value of the source accumulator of the cell before the call; the
result is its value after the call. -/
def calcSourceCell (gam mu Pr : ℝ) (ns : Bool) (sourceFunc : Int)
    (gps : List ((ℝ × ℝ) × ℝ)) (time : ℝ) (prev : Vec4) : Vec4 :=
  let zero : Vec4 := ⟨0, 0, 0, 0⟩
  let step := fun (st : Vec4 × Vec4) (gp : (ℝ × ℝ) × ℝ) =>
    let src := evalSource gam mu Pr ns sourceFunc gp.1 time st.2
    (⟨st.1.rho + src.rho * gp.2,
      st.1.mx + src.mx * gp.2,
      st.1.my + src.my * gp.2,
      st.1.e + src.e * gp.2⟩, src)
  (gps.foldl step (zero, zero)).1

/-! ## Claim C1: conservation across a face -/

/-- C1.  For every side processed by fluxCalculation, after the loop body
the flux accumulator of the paired connection side holds exactly the
negation of the flux accumulator of the side itself, component by
component, in Euler mode as well as in navierstokes mode. -/
theorem fluxCalculation_conservation (iFlux : Int) (riemann : RiemannSolver)
    (gam mu Pr nx ny len : ℝ) (sL sR sM gx gy : Prim) :
    ((sideFluxPair iFlux riemann gam nx ny len sL sR).2.rho
        = - (sideFluxPair iFlux riemann gam nx ny len sL sR).1.rho
      ∧ (sideFluxPair iFlux riemann gam nx ny len sL sR).2.mx
        = - (sideFluxPair iFlux riemann gam nx ny len sL sR).1.mx
      ∧ (sideFluxPair iFlux riemann gam nx ny len sL sR).2.my
        = - (sideFluxPair iFlux riemann gam nx ny len sL sR).1.my
      ∧ (sideFluxPair iFlux riemann gam nx ny len sL sR).2.e
        = - (sideFluxPair iFlux riemann gam nx ny len sL sR).1.e)
    ∧ ((sideFluxPairNS iFlux riemann gam mu Pr nx ny len sL sR sM gx gy).2.rho
        = - (sideFluxPairNS iFlux riemann gam mu Pr nx ny len sL sR sM gx gy).1.rho
      ∧ (sideFluxPairNS iFlux riemann gam mu Pr nx ny len sL sR sM gx gy).2.mx
        = - (sideFluxPairNS iFlux riemann gam mu Pr nx ny len sL sR sM gx gy).1.mx
      ∧ (sideFluxPairNS iFlux riemann gam mu Pr nx ny len sL sR sM gx gy).2.my
        = - (sideFluxPairNS iFlux riemann gam mu Pr nx ny len sL sR sM gx gy).1.my
      ∧ (sideFluxPairNS iFlux riemann gam mu Pr nx ny len sL sR sM gx gy).2.e
        = - (sideFluxPairNS iFlux riemann gam mu Pr nx ny len sL sR sM gx gy).1.e) :=
  ⟨⟨rfl, rfl, rfl, rfl⟩, ⟨rfl, rfl, rfl, rfl⟩⟩

/-! ## Claim C5: rotation round trip -/

/-- The identity rotation leaves a primitive state unchanged. -/
theorem rotateToNormal_id (s : Prim) : rotateToNormal 1 0 s = s := by
  ext <;> simp [rotateToNormal]

/-- Round-trip algebra for the x-momentum component of the flux rotation. -/
theorem rot_roundtrip_mx (nx ny A B len : ℝ) (hn : nx ^ 2 + ny ^ 2 = 1) :
    (1 * A - 0 * B) * len
      = nx * ((nx * A - ny * B) * len) + ny * ((ny * A + nx * B) * len) := by
  linear_combination (- A * len) * hn

/-- Round-trip algebra for the y-momentum component of the flux rotation. -/
theorem rot_roundtrip_my (nx ny A B len : ℝ) (hn : nx ^ 2 + ny ^ 2 = 1) :
    (0 * A + 1 * B) * len
      = - ny * ((nx * A - ny * B) * len) + nx * ((ny * A + nx * B) * len) := by
  linear_combination (- B * len) * hn

/-- C5.  Density and pressure are unchanged by the rotation into the
face-normal frame, and for a unit normal the rotate-compute-rotate-back
pipeline of fluxCalculation agrees with running the pipeline under the
identity normal on manually pre-rotated states: forward-rotating the
momentum components of the global-frame result recovers the identity
computation, i.e. the rotate and unrotate steps are mutually inverse. -/
theorem fluxCalculation_rotation_invariance (iFlux : Int)
    (riemann : RiemannSolver) (gam nx ny len : ℝ) (sL sR : Prim)
    (hn : nx ^ 2 + ny ^ 2 = 1) :
    (rotateToNormal nx ny sL).rho = sL.rho
    ∧ (rotateToNormal nx ny sL).p = sL.p
    ∧ sideFlux iFlux riemann gam 1 0 len
        (rotateToNormal nx ny sL) (rotateToNormal nx ny sR)
      = ⟨(sideFlux iFlux riemann gam nx ny len sL sR).rho,
         nx * (sideFlux iFlux riemann gam nx ny len sL sR).mx
           + ny * (sideFlux iFlux riemann gam nx ny len sL sR).my,
         - ny * (sideFlux iFlux riemann gam nx ny len sL sR).mx
           + nx * (sideFlux iFlux riemann gam nx ny len sL sR).my,
         (sideFlux iFlux riemann gam nx ny len sL sR).e⟩ := by
  refine ⟨rfl, rfl, ?_⟩
  simp only [sideFlux, rotateToNormal_id, Vec4.mk.injEq]
  exact ⟨by ring, rot_roundtrip_mx nx ny _ _ len hn,
    rot_roundtrip_my nx ny _ _ len hn, by ring⟩

/-- C5 witness: the round trip at the concrete unit normal (3/5, 4/5) with
the central kernel. -/
theorem fluxCalculation_rotation_invariance_witness :
    (rotateToNormal (3/5) (4/5) ⟨1, 2, 3, 4⟩).rho = (⟨1, 2, 3, 4⟩ : Prim).rho
    ∧ (rotateToNormal (3/5) (4/5) ⟨1, 2, 3, 4⟩).p = (⟨1, 2, 3, 4⟩ : Prim).p
    ∧ sideFlux CEN (fun _ _ _ _ _ _ _ _ _ => ((0:ℝ), (0:ℝ), (0:ℝ))) (7/5) 1 0 2
        (rotateToNormal (3/5) (4/5) ⟨1, 2, 3, 4⟩)
        (rotateToNormal (3/5) (4/5) ⟨1, 1, 1, 2⟩)
      = ⟨(sideFlux CEN (fun _ _ _ _ _ _ _ _ _ => ((0:ℝ), (0:ℝ), (0:ℝ))) (7/5)
            (3/5) (4/5) 2 ⟨1, 2, 3, 4⟩ ⟨1, 1, 1, 2⟩).rho,
         3/5 * (sideFlux CEN (fun _ _ _ _ _ _ _ _ _ => ((0:ℝ), (0:ℝ), (0:ℝ))) (7/5)
            (3/5) (4/5) 2 ⟨1, 2, 3, 4⟩ ⟨1, 1, 1, 2⟩).mx
           + 4/5 * (sideFlux CEN (fun _ _ _ _ _ _ _ _ _ => ((0:ℝ), (0:ℝ), (0:ℝ))) (7/5)
            (3/5) (4/5) 2 ⟨1, 2, 3, 4⟩ ⟨1, 1, 1, 2⟩).my,
         - (4/5) * (sideFlux CEN (fun _ _ _ _ _ _ _ _ _ => ((0:ℝ), (0:ℝ), (0:ℝ))) (7/5)
            (3/5) (4/5) 2 ⟨1, 2, 3, 4⟩ ⟨1, 1, 1, 2⟩).mx
           + 3/5 * (sideFlux CEN (fun _ _ _ _ _ _ _ _ _ => ((0:ℝ), (0:ℝ), (0:ℝ))) (7/5)
            (3/5) (4/5) 2 ⟨1, 2, 3, 4⟩ ⟨1, 1, 1, 2⟩).my,
         (sideFlux CEN (fun _ _ _ _ _ _ _ _ _ => ((0:ℝ), (0:ℝ), (0:ℝ))) (7/5)
            (3/5) (4/5) 2 ⟨1, 2, 3, 4⟩ ⟨1, 1, 1, 2⟩).e⟩ :=
  fluxCalculation_rotation_invariance CEN
    (fun _ _ _ _ _ _ _ _ _ => ((0:ℝ), (0:ℝ), (0:ℝ))) (7/5) (3/5) (4/5) 2
    ⟨1, 2, 3, 4⟩ ⟨1, 1, 1, 2⟩ (by norm_num)

/-! ## Claim C7: structure of the Godunov kernel -/

/-- C7.  The Godunov kernel takes the star state from the exact Riemann
solver, upwinds the tangential velocity by the sign of the resolved normal
velocity (left value if it is positive, right value otherwise), and
returns the physical flux of the resolved primitive state. -/
theorem flux_god_resolved_state (riemann : RiemannSolver)
    (gam rhoL rhoR vxL vxR vyL vyR pL pR : ℝ) (hgam : gam ≠ 1) :
    flux_god riemann gam rhoL rhoR vxL vxR vyL vyR pL pR
      = physFlux gam
          (riemann rhoL rhoR vxL vxR pL pR
            (cSound gam rhoL pL) (cSound gam rhoR pR) 0).1
          (riemann rhoL rhoR vxL vxR pL pR
            (cSound gam rhoL pL) (cSound gam rhoR pR) 0).2.1
          (if (riemann rhoL rhoR vxL vxR pL pR
            (cSound gam rhoL pL) (cSound gam rhoR pR) 0).2.1 > 0
           then vyL else vyR)
          (riemann rhoL rhoR vxL vxR pL pR
            (cSound gam rhoL pL) (cSound gam rhoR pR) 0).2.2 := by
  have h1 : gam - 1 ≠ 0 := sub_ne_zero.mpr hgam
  have key : gam / (gam - 1) = 1 / (gam - 1) + 1 := by
    field_simp
  ext
  · simp only [flux_god, physFlux]
  · simp only [flux_god, physFlux]
  · simp only [flux_god, physFlux]
  · simp only [flux_god, physFlux, consE, gam1, gam1q, key]
    ring

/-- C7 witness: a concrete solver returning the star state (2, 3, 5); the
tangential velocity is upwinded from the left since 3 > 0. -/
theorem flux_god_resolved_state_witness :
    flux_god (fun _ _ _ _ _ _ _ _ _ => ((2:ℝ), (3:ℝ), (5:ℝ))) (7/5)
        1 1 0 0 9 4 1 1
      = physFlux (7/5) 2 3 9 5 := by
  have h := flux_god_resolved_state
    (fun _ _ _ _ _ _ _ _ _ => ((2:ℝ), (3:ℝ), (5:ℝ))) (7/5)
    1 1 0 0 9 4 1 1 (by norm_num)
  simpa using h

/-! ## Claim C8: the diffusive flux carries no mass -/

/-- C8.  With the zero-initialized output accumulators of the call site,
the density component of both directional diffusive flux vectors is zero,
and consequently the density component of the navierstokes face flux is
identical to the Euler one: the density flux receives no diffusion
contribution. -/
theorem diffusionFlux_no_mass (gam mu Pr : ℝ) (state gx gy : Prim)
    (iFlux : Int) (riemann : RiemannSolver) (nx ny len : ℝ) (sL sR : Prim) :
    (diffusionFlux gam mu Pr state gx gy ⟨0, 0, 0, 0⟩ ⟨0, 0, 0, 0⟩).1.rho = 0
    ∧ (diffusionFlux gam mu Pr state gx gy ⟨0, 0, 0, 0⟩ ⟨0, 0, 0, 0⟩).2.rho = 0
    ∧ (sideFluxNS iFlux riemann gam mu Pr nx ny len sL sR state gx gy).rho
      = (sideFlux iFlux riemann gam nx ny len sL sR).rho := by
  refine ⟨rfl, rfl, ?_⟩
  simp only [sideFluxNS, sideFlux, diffusionFlux]
  ring

/-! ## Claim C9: the source evaluator is idempotent and stateless -/

/-- C9.  calcSource first zeroes the source accumulator of each cell and
then fully overwrites it with the quadrature sum, so the accumulated
source is independent of the previous accumulator value (statelessness)
and a second call with identical inputs reproduces the result of the
first exactly (idempotence). -/
theorem calcSource_idempotent (gam mu Pr : ℝ) (ns : Bool) (sourceFunc : Int)
    (gps : List ((ℝ × ℝ) × ℝ)) (time : ℝ) (prev prev1 prev2 : Vec4) :
    calcSourceCell gam mu Pr ns sourceFunc gps time
        (calcSourceCell gam mu Pr ns sourceFunc gps time prev)
      = calcSourceCell gam mu Pr ns sourceFunc gps time prev
    ∧ calcSourceCell gam mu Pr ns sourceFunc gps time prev1
      = calcSourceCell gam mu Pr ns sourceFunc gps time prev2 :=
  ⟨rfl, rfl⟩

/-! ## Claims C10 and C3: unknown scheme identifiers are silently ignored -/

/-- Shared helper: for an identifier outside the recognized set, the
switch of convectiveFlux falls through and returns the input accumulator. -/
theorem convectiveFlux_passthrough (iFlux : Int)
    (h : iFlux ∉ fluxSchemes) (riemann : RiemannSolver)
    (gam rhoL rhoR vxL vxR vyL vyR pL pR : ℝ) (fluxLoc : Vec4) :
    convectiveFlux iFlux riemann gam rhoL rhoR vxL vxR vyL vyR pL pR fluxLoc
      = fluxLoc := by
  simp only [fluxSchemes, List.mem_cons, List.not_mem_nil, or_false, not_or] at h
  obtain ⟨h1, h2, h3, h4, h5, h6, h7, h8, h9, h10, h11⟩ := h
  simp only [convectiveFlux, if_neg h1, if_neg h2, if_neg h3, if_neg h4,
    if_neg h5, if_neg h6, if_neg h7, if_neg h8, if_neg h9, if_neg h10,
    if_neg h11]

/-- C10.  If the configured scheme identifier matches none of the
recognized cases, convectiveFlux returns without writing the output array,
leaving it exactly as the caller passed it; since fluxCalculation
zero-initializes the array before the call, the flux of the side becomes
the zero vector (the zero vector scaled by the face length) rather than an
error. -/
theorem convectiveFlux_unknown_silent (iFlux : Int)
    (h : iFlux ∉ fluxSchemes) (riemann : RiemannSolver)
    (gam rhoL rhoR vxL vxR vyL vyR pL pR : ℝ) (fluxLoc : Vec4)
    (nx ny len : ℝ) (sL sR : Prim) :
    convectiveFlux iFlux riemann gam rhoL rhoR vxL vxR vyL vyR pL pR fluxLoc
      = fluxLoc
    ∧ sideFlux iFlux riemann gam nx ny len sL sR = ⟨0, 0, 0, 0⟩ := by
  refine ⟨convectiveFlux_passthrough iFlux h riemann _ _ _ _ _ _ _ _ _ _, ?_⟩
  simp only [sideFlux, convectiveFlux_passthrough iFlux h riemann,
    Vec4.mk.injEq]
  refine ⟨by ring, by ring, by ring, by ring⟩

/-- C10 witness: the unrecognized identifier 999 leaves the accumulator
untouched and produces the zero face flux. -/
theorem convectiveFlux_unknown_silent_witness :
    convectiveFlux 999 (fun _ _ _ _ _ _ _ _ _ => ((0:ℝ), (0:ℝ), (0:ℝ)))
        (7/5) 1 1 2 2 0 0 1 1 ⟨5, 6, 7, 8⟩ = ⟨5, 6, 7, 8⟩
    ∧ sideFlux 999 (fun _ _ _ _ _ _ _ _ _ => ((0:ℝ), (0:ℝ), (0:ℝ)))
        (7/5) 1 0 3 ⟨1, 2, 0, 1⟩ ⟨1, 2, 0, 1⟩ = ⟨0, 0, 0, 0⟩ :=
  convectiveFlux_unknown_silent 999 (by decide)
    (fun _ _ _ _ _ _ _ _ _ => ((0:ℝ), (0:ℝ), (0:ℝ)))
    (7/5) 1 1 2 2 0 0 1 1 ⟨5, 6, 7, 8⟩ 1 0 3 ⟨1, 2, 0, 1⟩ ⟨1, 2, 0, 1⟩

/-- C3 counterexample: at the unrecognized identifier 999 the dispatch
returns normally with the accumulator exactly as passed, i.e. it neither
raises a configuration error nor refuses the identifier before the
parallel loop; the fail-fast behavior the claim demands does not exist in
convectiveFlux. -/
theorem convectiveFlux_no_failfast_cex :
    convectiveFlux 999 (fun _ _ _ _ _ _ _ _ _ => ((0:ℝ), (0:ℝ), (0:ℝ)))
        (7/5) 1 1 2 2 0 0 1 1 ⟨7, 8, 9, 10⟩ = ⟨7, 8, 9, 10⟩ :=
  convectiveFlux_passthrough 999 (by decide)
    (fun _ _ _ _ _ _ _ _ _ => ((0:ℝ), (0:ℝ), (0:ℝ)))
    (7/5) 1 1 2 2 0 0 1 1 ⟨7, 8, 9, 10⟩

/-- C3 amended: the dispatch never fails and never runs a kernel for an
identifier outside the recognized closed set (which has eleven members,
not ten); it silently returns the untouched accumulator. -/
theorem convectiveFlux_unknown_returns_input (iFlux : Int)
    (h : iFlux ∉ fluxSchemes) (riemann : RiemannSolver)
    (gam rhoL rhoR vxL vxR vyL vyR pL pR : ℝ) (fluxLoc : Vec4) :
    convectiveFlux iFlux riemann gam rhoL rhoR vxL vxR vyL vyR pL pR fluxLoc
      = fluxLoc :=
  convectiveFlux_passthrough iFlux h riemann
    gam rhoL rhoR vxL vxR vyL vyR pL pR fluxLoc

/-- C3 amended witness at the identifier minus one. -/
theorem convectiveFlux_unknown_returns_input_witness :
    convectiveFlux (-1) (fun _ _ _ _ _ _ _ _ _ => ((0:ℝ), (0:ℝ), (0:ℝ)))
        (7/5) 2 1 0 1 3 0 2 1 ⟨1, 2, 3, 4⟩ = ⟨1, 2, 3, 4⟩ :=
  convectiveFlux_unknown_returns_input (-1) (by decide)
    (fun _ _ _ _ _ _ _ _ _ => ((0:ℝ), (0:ℝ), (0:ℝ)))
    (7/5) 2 1 0 1 3 0 2 1 ⟨1, 2, 3, 4⟩

/-! ## Kernel consistency lemmas (for claim C2): equal left and right
states reproduce the physical flux. -/

/-- Central kernel consistency. -/
theorem flux_cen_consistent (gam rho vx vy p : ℝ) :
    flux_cen gam rho rho vx vx vy vy p p = physFlux gam rho vx vy p := by
  simp only [flux_cen, physFlux, Vec4.mk.injEq]
  exact ⟨by ring, by ring, by ring, by ring⟩

/-- Lax-Friedrichs kernel consistency: the dissipation term vanishes when
the states are equal. -/
theorem flux_lxf_consistent (gam rho vx vy p : ℝ) :
    flux_lxf gam rho rho vx vx vy vy p p = physFlux gam rho vx vy p := by
  simp only [flux_lxf, physFlux, Vec4.mk.injEq]
  exact ⟨by ring, by ring, by ring, by ring⟩

/-- Roe kernel consistency: all four wave strengths vanish when the
states are equal. -/
theorem flux_roe_consistent (gam rho vx vy p : ℝ) :
    flux_roe gam rho rho vx vx vy vy p p = physFlux gam rho vx vy p := by
  simp only [flux_roe, physFlux, Vec4.mk.injEq]
  exact ⟨by ring, by ring, by ring, by ring⟩

/-- Godunov kernel consistency, given that the exact Riemann solver
returns the common state when both inputs agree. -/
theorem flux_god_consistent (riemann : RiemannSolver) (gam rho vx vy p : ℝ)
    (hgam : gam ≠ 1)
    (hsol : riemann rho rho vx vx p p
        (cSound gam rho p) (cSound gam rho p) 0 = (rho, vx, p)) :
    flux_god riemann gam rho rho vx vx vy vy p p
      = physFlux gam rho vx vy p := by
  have h1 : gam - 1 ≠ 0 := sub_ne_zero.mpr hgam
  have key : gam / (gam - 1) = 1 / (gam - 1) + 1 := by
    field_simp
  simp only [flux_god, hsol, ite_self]
  simp only [physFlux, consE, gam1, gam1q, key, Vec4.mk.injEq]
  exact ⟨by ring, by ring, by ring, by ring⟩

/-- HLL kernel consistency. -/
theorem flux_hll_consistent (gam rho vx vy p : ℝ)
    (hgam : 1 < gam) (hrho : 0 < rho) (hp : 0 < p) :
    flux_hll gam rho rho vx vx vy vy p p = physFlux gam rho vx vy p := by
  have hc : 0 < cSound gam rho p := Real.sqrt_pos.mpr (by positivity)
  have halm : hll_alm gam rho rho vx vx vy vy p p ≤ vx - cSound gam rho p := by
    simp only [hll_alm]
    exact min_le_left _ _
  have harp : vx + cSound gam rho p ≤ hll_arp gam rho rho vx vx vy vy p p := by
    simp only [hll_arp]
    exact le_max_left _ _
  have hne : hll_arp gam rho rho vx vx vy vy p p
      - hll_alm gam rho rho vx vx vy vy p p ≠ 0 := by
    have : hll_alm gam rho rho vx vx vy vy p p
        < hll_arp gam rho rho vx vx vy vy p p := by linarith
    exact sub_ne_zero.mpr (ne_of_gt this)
  simp only [flux_hll]
  split_ifs with h1 h2
  · rfl
  · rfl
  · simp only [physFlux, consState, Vec4.mk.injEq]
    refine ⟨?_, ?_, ?_, ?_⟩ <;> (field_simp [hne]; ring)

/-- HLLE kernel consistency. -/
theorem flux_hlle_consistent (gam rho vx vy p : ℝ)
    (hgam : 1 < gam) (hrho : 0 < rho) (hp : 0 < p) :
    flux_hlle gam rho rho vx vx vy vy p p = physFlux gam rho vx vy p := by
  have hc : 0 < cSound gam rho p := Real.sqrt_pos.mpr (by positivity)
  have halm : min (vx - cSound gam rho p)
      (roe_vxBar rho rho vx vx - hlle_d gam rho rho vx vx p p)
      ≤ vx - cSound gam rho p := min_le_left _ _
  have harp : vx + cSound gam rho p
      ≤ max (vx + cSound gam rho p)
        (roe_vxBar rho rho vx vx + hlle_d gam rho rho vx vx p p) :=
    le_max_left _ _
  have hne : max (vx + cSound gam rho p)
        (roe_vxBar rho rho vx vx + hlle_d gam rho rho vx vx p p)
      - min (vx - cSound gam rho p)
        (roe_vxBar rho rho vx vx - hlle_d gam rho rho vx vx p p) ≠ 0 := by
    have h := halm
    have h2 := harp
    exact sub_ne_zero.mpr (ne_of_gt (by linarith))
  simp only [flux_hlle]
  split_ifs with h1 h2
  · rfl
  · rfl
  · simp only [physFlux, consState, Vec4.mk.injEq]
    refine ⟨?_, ?_, ?_, ?_⟩ <;> (field_simp [hne]; ring)

/-- Steger-Warming kernel consistency: the positive and negative split
parts recombine into the full physical flux. -/
theorem flux_stw_consistent (gam rho vx vy p : ℝ)
    (hgam : 1 < gam) (hrho : 0 < rho) (hp : 0 < p) :
    flux_stw gam rho rho vx vx vy vy p p = physFlux gam rho vx vy p := by
  have hg0 : gam ≠ 0 := by linarith
  have hg1 : gam - 1 ≠ 0 := by intro h; linarith [sub_eq_zero.mp h]
  have hr0 : rho ≠ 0 := ne_of_gt hrho
  simp only [flux_stw, physFlux, consE, gam1, gam1q, Vec4.mk.injEq]
  set c := cSound gam rho p with hcdef
  have hpc : rho * (c * c) = gam * p := by
    rw [hcdef]
    rw [show cSound gam rho p * cSound gam rho p = gam * p / rho from
      Real.mul_self_sqrt (by positivity)]
    field_simp
  have hpeq : p = rho * (c * c) / gam := by
    rw [eq_div_iff hg0]
    linear_combination - hpc
  have hm0 : min (vx - c) 0 = (vx - c) - max (vx - c) 0 := by
    have := max_add_min (vx - c) 0
    linarith
  have hm1 : min vx 0 = vx - max vx 0 := by
    have := max_add_min vx 0
    linarith
  have hm3 : min (vx + c) 0 = (vx + c) - max (vx + c) 0 := by
    have := max_add_min (vx + c) 0
    linarith
  rw [hm0, hm1, hm3, hpeq]
  refine ⟨?_, ?_, ?_, ?_⟩ <;> (field_simp; try ring)

/-- HLLC kernel consistency: the contact speed collapses to the common
normal velocity and the star state to the common state. -/
theorem flux_hllc_consistent (gam rho vx vy p : ℝ)
    (hgam : 1 < gam) (hrho : 0 < rho) (hp : 0 < p) :
    flux_hllc gam rho rho vx vx vy vy p p = physFlux gam rho vx vy p := by
  have hc : 0 < cSound gam rho p := Real.sqrt_pos.mpr (by positivity)
  have hr0 : rho ≠ 0 := ne_of_gt hrho
  have halm : hll_alm gam rho rho vx vx vy vy p p ≤ vx - cSound gam rho p := by
    simp only [hll_alm]
    exact min_le_left _ _
  have harp : vx + cSound gam rho p ≤ hll_arp gam rho rho vx vx vy vy p p := by
    simp only [hll_arp]
    exact le_max_left _ _
  have halmvx : hll_alm gam rho rho vx vx vy vy p p - vx < 0 := by linarith
  have harpvx : 0 < hll_arp gam rho rho vx vx vy vy p p - vx := by linarith
  have hden : rho * (hll_alm gam rho rho vx vx vy vy p p - vx)
      - rho * (hll_arp gam rho rho vx vx vy vy p p - vx) ≠ 0 := by
    have : rho * (hll_alm gam rho rho vx vx vy vy p p - vx)
        - rho * (hll_arp gam rho rho vx vx vy vy p p - vx) < 0 := by nlinarith
    exact ne_of_lt this
  have has : hllc_as gam rho rho vx vx vy vy p p = vx := by
    simp only [hllc_as]
    rw [show p - p + rho * vx * (hll_alm gam rho rho vx vx vy vy p p - vx)
        - rho * vx * (hll_arp gam rho rho vx vx vy vy p p - vx)
      = vx * (rho * (hll_alm gam rho rho vx vx vy vy p p - vx)
        - rho * (hll_arp gam rho rho vx vx vy vy p p - vx)) from by ring]
    rw [mul_div_assoc, div_self hden, mul_one]
  simp only [flux_hllc, has]
  split_ifs with h1 h2 h3
  · rfl
  · rfl
  · have hfac : hll_alm gam rho rho vx vx vy vy p p - vx ≠ 0 :=
      ne_of_lt halmvx
    simp only [hllc_star, physFlux, consState, consE, Vec4.mk.injEq]
    refine ⟨?_, ?_, ?_, ?_⟩ <;> (field_simp [hfac]; try ring)
  · have hfac : hll_arp gam rho rho vx vx vy vy p p - vx ≠ 0 :=
      ne_of_gt harpvx
    simp only [hllc_star, physFlux, consState, consE, Vec4.mk.injEq]
    refine ⟨?_, ?_, ?_, ?_⟩ <;> (field_simp [hfac]; try ring)

/-- AUSMD kernel consistency. -/
theorem flux_ausmd_consistent (gam rho vx vy p : ℝ)
    (hgam : 1 < gam) (hrho : 0 < rho) (hp : 0 < p) :
    flux_ausmd gam rho rho vx vx vy vy p p = physFlux gam rho vx vy p := by
  have hc : 0 < cSound gam rho p := Real.sqrt_pos.mpr (by positivity)
  have hr0 : rho ≠ 0 := ne_of_gt hrho
  have hp0 : p ≠ 0 := ne_of_gt hp
  have halpha : 2 * p / rho / (p / rho + p / rho) = 1 := by
    rw [div_add_div_same]
    field_simp
    ring
  simp only [flux_ausmd, max_self, halpha, ausmd_plus, ausmd_minus,
    enthalpy, consE]
  split_ifs with hsub
  · simp only [physFlux, consE, Vec4.mk.injEq]
    refine ⟨?_, ?_, ?_, ?_⟩ <;>
      (first
        | (field_simp [ne_of_gt hc]; try ring)
        | ring)
  · have hvx : vx ≠ 0 := by
      intro h
      rw [h] at hsub
      simp only [abs_zero, not_lt] at hsub
      linarith
    simp only [physFlux, consE, Vec4.mk.injEq]
    refine ⟨?_, ?_, ?_, ?_⟩ <;>
      (first
        | (field_simp [hvx]; try ring)
        | ring)

set_option maxHeartbeats 1000000 in
/-- AUSMDV kernel consistency: at equal states the pressure switch
vanishes, the entropy-fix conditions are unsatisfiable, and the split
terms recombine exactly. -/
theorem flux_ausmdv_consistent (gam rho vx vy p : ℝ)
    (hgam : 1 < gam) (hrho : 0 < rho) (hp : 0 < p) :
    flux_ausmdv gam rho rho vx vx vy vy p p = physFlux gam rho vx vy p := by
  have hc : 0 < cSound gam rho p := Real.sqrt_pos.mpr (by positivity)
  have hr0 : rho ≠ 0 := ne_of_gt hrho
  have hs : min (1:ℝ) (10 * |p - p| / min p p) = 0 := by
    rw [sub_self, abs_zero, mul_zero, zero_div]
    exact min_eq_right zero_le_one
  have hfixa : ¬ (((vx - cSound gam rho p < 0 ∧ vx - cSound gam rho p > 0)
      ∧ ¬ (vx + cSound gam rho p < 0 ∧ vx + cSound gam rho p > 0))) := by
    rintro ⟨⟨ha, hb⟩, -⟩
    linarith
  have hfixb : ¬ ((¬ (vx - cSound gam rho p < 0 ∧ vx - cSound gam rho p > 0))
      ∧ (vx + cSound gam rho p < 0 ∧ vx + cSound gam rho p > 0)) := by
    rintro ⟨-, ha, hb⟩
    linarith
  have halpha : 2 * p / rho / (p / rho + p / rho) = 1 := by
    rw [div_add_div_same]
    field_simp
    ring
  simp only [flux_ausmdv, max_self, hs, halpha, ausmdv_plus, ausmdv_minus,
    enthalpy, consE, if_neg hfixa, if_neg hfixb]
  split_ifs with hsub hpos
  · simp only [physFlux, consE, Vec4.mk.injEq]
    refine ⟨?_, ?_, ?_, ?_⟩ <;>
      (first
        | (field_simp [ne_of_gt hc]; try ring)
        | ring)
  · simp only [physFlux, consE, Vec4.mk.injEq]
    refine ⟨?_, ?_, ?_, ?_⟩ <;>
      (first
        | (field_simp [ne_of_gt hc]; try ring)
        | ring)
  · simp only [physFlux, consE, Vec4.mk.injEq]
    refine ⟨?_, ?_, ?_, ?_⟩ <;>
      (first
        | (field_simp; try ring)
        | ring)
  · simp only [physFlux, consE, Vec4.mk.injEq]
    refine ⟨?_, ?_, ?_, ?_⟩ <;>
      (first
        | (field_simp; try ring)
        | ring)

/-- Van Leer kernel consistency away from the two sonic points
vx equal to plus or minus the sound speed. -/
theorem flux_vanleer_consistent (gam rho vx vy p : ℝ)
    (hgam : 1 < gam) (hrho : 0 < rho) (hp : 0 < p)
    (hss : |vx| ≠ cSound gam rho p) :
    flux_vanleer gam rho rho vx vx vy vy p p = physFlux gam rho vx vy p := by
  have hc : 0 < cSound gam rho p := Real.sqrt_pos.mpr (by positivity)
  have hr0 : rho ≠ 0 := ne_of_gt hrho
  have hg0 : gam ≠ 0 := by linarith
  have hg1 : gam - 1 ≠ 0 := by intro h; linarith [sub_eq_zero.mp h]
  have hgg1 : gam * gam - 1 ≠ 0 := by nlinarith
  rcases lt_or_gt_of_ne hss with habs | habs
  · -- transonic: |vx| < c
    obtain ⟨hgt, hlt⟩ := abs_lt.mp habs
    have hM1 : ¬ (vx / cSound gam rho p > 1) := by
      rw [gt_iff_lt, lt_div_iff hc]
      linarith
    have hM2 : vx / cSound gam rho p < 1 ∧ vx / cSound gam rho p > -1 := by
      constructor
      · rw [div_lt_one hc]
        exact hlt
      · rw [gt_iff_lt, neg_lt, ← neg_div, div_lt_one hc]
        linarith
    have hM3 : ¬ (vx / cSound gam rho p < -1) := by
      rw [div_lt_iff hc]
      intro h
      nlinarith
    simp only [flux_vanleer, vanleer_fp, vanleer_fm, if_neg hM1, if_neg hM3,
      if_pos hM2, enthalpy, consE, gam1, gam1q]
    set c := cSound gam rho p with hcdef
    have hc0 : c ≠ 0 := ne_of_gt hc
    have hpc : rho * (c * c) = gam * p := by
      rw [hcdef]
      rw [show cSound gam rho p * cSound gam rho p = gam * p / rho from
        Real.mul_self_sqrt (by positivity)]
      field_simp
    have hpeq : p = rho * (c * c) / gam := by
      rw [eq_div_iff hg0]
      linear_combination - hpc
    rw [hpeq]
    simp only [physFlux, consE, gam1q, Vec4.mk.injEq]
    refine ⟨?_, ?_, ?_, ?_⟩ <;>
      (field_simp
       try ring)
  · -- supersonic: c < |vx|
    rcases le_or_lt 0 vx with hsgn | hsgn
    · have hgt : cSound gam rho p < vx := by
        rw [abs_of_nonneg hsgn] at habs
        exact habs
      have hM1 : vx / cSound gam rho p > 1 := by
        rw [gt_iff_lt, lt_div_iff hc]
        linarith
      have hM3 : ¬ (vx / cSound gam rho p < -1) := by
        rw [div_lt_iff hc]
        intro h
        nlinarith
      have hM2 : ¬ (vx / cSound gam rho p < 1 ∧ vx / cSound gam rho p > -1) := by
        rintro ⟨ha, -⟩
        rw [div_lt_one hc] at ha
        linarith
      simp only [flux_vanleer, vanleer_fp, vanleer_fm, if_pos hM1,
        if_neg hM3, if_neg hM2, enthalpy, consE,
        physFlux, Vec4.mk.injEq]
      refine ⟨?_, ?_, ?_, ?_⟩ <;>
        (first
          | (field_simp; try ring)
          | ring)
    · have hlt : vx < - cSound gam rho p := by
        rw [abs_of_neg hsgn] at habs
        linarith
      have hM3 : vx / cSound gam rho p < -1 := by
        rw [div_lt_iff hc]
        linarith
      have hM1 : ¬ (vx / cSound gam rho p > 1) := by
        rw [gt_iff_lt, lt_div_iff hc]
        intro h
        nlinarith
      have hM2 : ¬ (vx / cSound gam rho p < 1 ∧ vx / cSound gam rho p > -1) := by
        rintro ⟨-, hb⟩
        rw [gt_iff_lt, neg_lt, ← neg_div, div_lt_one hc] at hb
        linarith
      simp only [flux_vanleer, vanleer_fp, vanleer_fm, if_pos hM3,
        if_neg hM1, if_neg hM2, enthalpy, consE,
        physFlux, Vec4.mk.injEq]
      refine ⟨?_, ?_, ?_, ?_⟩ <;>
        (first
          | (field_simp; try ring)
          | ring)

/-! ## Dispatch lemmas: each recognized identifier selects its kernel. -/

/-- Dispatch of the Godunov identifier. -/
theorem convectiveFlux_god (riemann : RiemannSolver)
    (gam rhoL rhoR vxL vxR vyL vyR pL pR : ℝ) (f0 : Vec4) :
    convectiveFlux GOD riemann gam rhoL rhoR vxL vxR vyL vyR pL pR f0
      = flux_god riemann gam rhoL rhoR vxL vxR vyL vyR pL pR := by
  norm_num [convectiveFlux, GOD, ROE, HLL, HLLE, HLLC, LXF, STW, CEN,
    AUSMD, AUSMDV, VANLEER]

/-- Dispatch of the Roe identifier. -/
theorem convectiveFlux_roe (riemann : RiemannSolver)
    (gam rhoL rhoR vxL vxR vyL vyR pL pR : ℝ) (f0 : Vec4) :
    convectiveFlux ROE riemann gam rhoL rhoR vxL vxR vyL vyR pL pR f0
      = flux_roe gam rhoL rhoR vxL vxR vyL vyR pL pR := by
  norm_num [convectiveFlux, GOD, ROE, HLL, HLLE, HLLC, LXF, STW, CEN,
    AUSMD, AUSMDV, VANLEER]

/-- Dispatch of the HLL identifier. -/
theorem convectiveFlux_hll (riemann : RiemannSolver)
    (gam rhoL rhoR vxL vxR vyL vyR pL pR : ℝ) (f0 : Vec4) :
    convectiveFlux HLL riemann gam rhoL rhoR vxL vxR vyL vyR pL pR f0
      = flux_hll gam rhoL rhoR vxL vxR vyL vyR pL pR := by
  norm_num [convectiveFlux, GOD, ROE, HLL, HLLE, HLLC, LXF, STW, CEN,
    AUSMD, AUSMDV, VANLEER]

/-- Dispatch of the HLLE identifier. -/
theorem convectiveFlux_hlle (riemann : RiemannSolver)
    (gam rhoL rhoR vxL vxR vyL vyR pL pR : ℝ) (f0 : Vec4) :
    convectiveFlux HLLE riemann gam rhoL rhoR vxL vxR vyL vyR pL pR f0
      = flux_hlle gam rhoL rhoR vxL vxR vyL vyR pL pR := by
  norm_num [convectiveFlux, GOD, ROE, HLL, HLLE, HLLC, LXF, STW, CEN,
    AUSMD, AUSMDV, VANLEER]

/-- Dispatch of the HLLC identifier. -/
theorem convectiveFlux_hllc (riemann : RiemannSolver)
    (gam rhoL rhoR vxL vxR vyL vyR pL pR : ℝ) (f0 : Vec4) :
    convectiveFlux HLLC riemann gam rhoL rhoR vxL vxR vyL vyR pL pR f0
      = flux_hllc gam rhoL rhoR vxL vxR vyL vyR pL pR := by
  norm_num [convectiveFlux, GOD, ROE, HLL, HLLE, HLLC, LXF, STW, CEN,
    AUSMD, AUSMDV, VANLEER]

/-- Dispatch of the Lax-Friedrichs identifier. -/
theorem convectiveFlux_lxf (riemann : RiemannSolver)
    (gam rhoL rhoR vxL vxR vyL vyR pL pR : ℝ) (f0 : Vec4) :
    convectiveFlux LXF riemann gam rhoL rhoR vxL vxR vyL vyR pL pR f0
      = flux_lxf gam rhoL rhoR vxL vxR vyL vyR pL pR := by
  norm_num [convectiveFlux, GOD, ROE, HLL, HLLE, HLLC, LXF, STW, CEN,
    AUSMD, AUSMDV, VANLEER]

/-- Dispatch of the Steger-Warming identifier. -/
theorem convectiveFlux_stw (riemann : RiemannSolver)
    (gam rhoL rhoR vxL vxR vyL vyR pL pR : ℝ) (f0 : Vec4) :
    convectiveFlux STW riemann gam rhoL rhoR vxL vxR vyL vyR pL pR f0
      = flux_stw gam rhoL rhoR vxL vxR vyL vyR pL pR := by
  norm_num [convectiveFlux, GOD, ROE, HLL, HLLE, HLLC, LXF, STW, CEN,
    AUSMD, AUSMDV, VANLEER]

/-- Dispatch of the central identifier. -/
theorem convectiveFlux_cen (riemann : RiemannSolver)
    (gam rhoL rhoR vxL vxR vyL vyR pL pR : ℝ) (f0 : Vec4) :
    convectiveFlux CEN riemann gam rhoL rhoR vxL vxR vyL vyR pL pR f0
      = flux_cen gam rhoL rhoR vxL vxR vyL vyR pL pR := by
  norm_num [convectiveFlux, GOD, ROE, HLL, HLLE, HLLC, LXF, STW, CEN,
    AUSMD, AUSMDV, VANLEER]

/-- Dispatch of the AUSMD identifier. -/
theorem convectiveFlux_ausmd (riemann : RiemannSolver)
    (gam rhoL rhoR vxL vxR vyL vyR pL pR : ℝ) (f0 : Vec4) :
    convectiveFlux AUSMD riemann gam rhoL rhoR vxL vxR vyL vyR pL pR f0
      = flux_ausmd gam rhoL rhoR vxL vxR vyL vyR pL pR := by
  norm_num [convectiveFlux, GOD, ROE, HLL, HLLE, HLLC, LXF, STW, CEN,
    AUSMD, AUSMDV, VANLEER]

/-- Dispatch of the AUSMDV identifier. -/
theorem convectiveFlux_ausmdv (riemann : RiemannSolver)
    (gam rhoL rhoR vxL vxR vyL vyR pL pR : ℝ) (f0 : Vec4) :
    convectiveFlux AUSMDV riemann gam rhoL rhoR vxL vxR vyL vyR pL pR f0
      = flux_ausmdv gam rhoL rhoR vxL vxR vyL vyR pL pR := by
  norm_num [convectiveFlux, GOD, ROE, HLL, HLLE, HLLC, LXF, STW, CEN,
    AUSMD, AUSMDV, VANLEER]

/-- Dispatch of the van Leer identifier. -/
theorem convectiveFlux_vanleer (riemann : RiemannSolver)
    (gam rhoL rhoR vxL vxR vyL vyR pL pR : ℝ) (f0 : Vec4) :
    convectiveFlux VANLEER riemann gam rhoL rhoR vxL vxR vyL vyR pL pR f0
      = flux_vanleer gam rhoL rhoR vxL vxR vyL vyR pL pR := by
  norm_num [convectiveFlux, GOD, ROE, HLL, HLLE, HLLC, LXF, STW, CEN,
    AUSMD, AUSMDV, VANLEER]

/-! ## Claim C6: branch structure of the HLL kernel -/

/-- C6.  The HLL kernel estimates the slowest left-going signal speed as
the minimum of the physical and Roe-averaged first eigenvalues and the
fastest right-going signal speed as the maximum of the physical and
Roe-averaged last eigenvalues; it returns the left physical flux when the
left estimate is positive, the right physical flux when the right estimate
is negative, and otherwise the standard two-wave HLL average weighted by
the two signal speeds. -/
theorem flux_hll_branch_structure (gam rhoL rhoR vxL vxR vyL vyR pL pR : ℝ) :
    (hll_alm gam rhoL rhoR vxL vxR vyL vyR pL pR > 0 →
      flux_hll gam rhoL rhoR vxL vxR vyL vyR pL pR
        = physFlux gam rhoL vxL vyL pL)
    ∧ (¬ (hll_alm gam rhoL rhoR vxL vxR vyL vyR pL pR > 0) →
      hll_arp gam rhoL rhoR vxL vxR vyL vyR pL pR < 0 →
      flux_hll gam rhoL rhoR vxL vxR vyL vyR pL pR
        = physFlux gam rhoR vxR vyR pR)
    ∧ (¬ (hll_alm gam rhoL rhoR vxL vxR vyL vyR pL pR > 0) →
      ¬ (hll_arp gam rhoL rhoR vxL vxR vyL vyR pL pR < 0) →
      flux_hll gam rhoL rhoR vxL vxR vyL vyR pL pR
        = ⟨(hll_arp gam rhoL rhoR vxL vxR vyL vyR pL pR
              * (physFlux gam rhoL vxL vyL pL).rho
            - hll_alm gam rhoL rhoR vxL vxR vyL vyR pL pR
              * (physFlux gam rhoR vxR vyR pR).rho)
            * (1 / (hll_arp gam rhoL rhoR vxL vxR vyL vyR pL pR
              - hll_alm gam rhoL rhoR vxL vxR vyL vyR pL pR))
          + (hll_arp gam rhoL rhoR vxL vxR vyL vyR pL pR
              * hll_alm gam rhoL rhoR vxL vxR vyL vyR pL pR)
            * (1 / (hll_arp gam rhoL rhoR vxL vxR vyL vyR pL pR
              - hll_alm gam rhoL rhoR vxL vxR vyL vyR pL pR))
            * ((consState gam rhoR vxR vyR pR).rho
              - (consState gam rhoL vxL vyL pL).rho),
          (hll_arp gam rhoL rhoR vxL vxR vyL vyR pL pR
              * (physFlux gam rhoL vxL vyL pL).mx
            - hll_alm gam rhoL rhoR vxL vxR vyL vyR pL pR
              * (physFlux gam rhoR vxR vyR pR).mx)
            * (1 / (hll_arp gam rhoL rhoR vxL vxR vyL vyR pL pR
              - hll_alm gam rhoL rhoR vxL vxR vyL vyR pL pR))
          + (hll_arp gam rhoL rhoR vxL vxR vyL vyR pL pR
              * hll_alm gam rhoL rhoR vxL vxR vyL vyR pL pR)
            * (1 / (hll_arp gam rhoL rhoR vxL vxR vyL vyR pL pR
              - hll_alm gam rhoL rhoR vxL vxR vyL vyR pL pR))
            * ((consState gam rhoR vxR vyR pR).mx
              - (consState gam rhoL vxL vyL pL).mx),
          (hll_arp gam rhoL rhoR vxL vxR vyL vyR pL pR
              * (physFlux gam rhoL vxL vyL pL).my
            - hll_alm gam rhoL rhoR vxL vxR vyL vyR pL pR
              * (physFlux gam rhoR vxR vyR pR).my)
            * (1 / (hll_arp gam rhoL rhoR vxL vxR vyL vyR pL pR
              - hll_alm gam rhoL rhoR vxL vxR vyL vyR pL pR))
          + (hll_arp gam rhoL rhoR vxL vxR vyL vyR pL pR
              * hll_alm gam rhoL rhoR vxL vxR vyL vyR pL pR)
            * (1 / (hll_arp gam rhoL rhoR vxL vxR vyL vyR pL pR
              - hll_alm gam rhoL rhoR vxL vxR vyL vyR pL pR))
            * ((consState gam rhoR vxR vyR pR).my
              - (consState gam rhoL vxL vyL pL).my),
          (hll_arp gam rhoL rhoR vxL vxR vyL vyR pL pR
              * (physFlux gam rhoL vxL vyL pL).e
            - hll_alm gam rhoL rhoR vxL vxR vyL vyR pL pR
              * (physFlux gam rhoR vxR vyR pR).e)
            * (1 / (hll_arp gam rhoL rhoR vxL vxR vyL vyR pL pR
              - hll_alm gam rhoL rhoR vxL vxR vyL vyR pL pR))
          + (hll_arp gam rhoL rhoR vxL vxR vyL vyR pL pR
              * hll_alm gam rhoL rhoR vxL vxR vyL vyR pL pR)
            * (1 / (hll_arp gam rhoL rhoR vxL vxR vyL vyR pL pR
              - hll_alm gam rhoL rhoR vxL vxR vyL vyR pL pR))
            * ((consState gam rhoR vxR vyR pR).e
              - (consState gam rhoL vxL vyL pL).e)⟩) := by
  refine ⟨?_, ?_, ?_⟩
  · intro h
    simp only [flux_hll]
    rw [if_pos h]
  · intro hn h
    simp only [flux_hll]
    rw [if_neg hn, if_pos h]
  · intro hn1 hn2
    simp only [flux_hll]
    rw [if_neg hn1, if_neg hn2]

/-- C6 witness: supersonic left-to-right flow selects the left physical
flux. -/
theorem flux_hll_branch_structure_witness :
    flux_hll (7/5) 1 1 3 3 0 0 1 1 = physFlux (7/5) 1 3 0 1 := by
  apply (flux_hll_branch_structure (7/5) 1 1 3 3 0 0 1 1).1
  have h1 : cSound (7/5) 1 1 < 3 := by
    simp only [cSound]
    exact (Real.sqrt_lt' (by norm_num)).mpr (by norm_num)
  have h2 : roe_cBar (7/5) 1 1 3 3 0 0 1 1 < 3 := by
    simp only [roe_cBar, roe_Hbar, roe_vxBar, roeAvg, enthalpy, consE,
      gam1, gam1q, Real.sqrt_one]
    apply (Real.sqrt_lt' (by norm_num)).mpr
    norm_num
  have h3 : roe_vxBar 1 1 3 3 = 3 := by
    simp only [roe_vxBar, roeAvg, Real.sqrt_one]
    norm_num
  simp only [hll_alm, h3, gt_iff_lt, lt_min_iff]
  constructor <;> linarith

/-! ## Claim C2: kernel consistency through the dispatch -/

/-- C2 counterexample: at the sonic state vx = c the van Leer kernel
returns the zero flux instead of the physical flux, so the consistency
claim fails as stated for the van Leer kernel reachable through
convectiveFlux (the state rho = 1, p = 1, vx = sqrt(7/5) is admissible). -/
theorem flux_vanleer_sonic_cex :
    convectiveFlux VANLEER (fun _ _ _ _ _ _ _ _ _ => ((0:ℝ), (0:ℝ), (0:ℝ)))
        (7/5) 1 1 (Real.sqrt (7/5 * 1 / 1)) (Real.sqrt (7/5 * 1 / 1)) 0 0 1 1
        ⟨0, 0, 0, 0⟩
      ≠ physFlux (7/5) 1 (Real.sqrt (7/5 * 1 / 1)) 0 1 := by
  have hc : (0:ℝ) < Real.sqrt (7/5 * 1 / 1) := Real.sqrt_pos.mpr (by norm_num)
  have hdisp := convectiveFlux_vanleer
    (fun _ _ _ _ _ _ _ _ _ => ((0:ℝ), (0:ℝ), (0:ℝ)))
    (7/5) 1 1 (Real.sqrt (7/5 * 1 / 1)) (Real.sqrt (7/5 * 1 / 1)) 0 0 1 1
    ⟨0, 0, 0, 0⟩
  have hval : flux_vanleer (7/5) 1 1 (Real.sqrt (7/5 * 1 / 1))
      (Real.sqrt (7/5 * 1 / 1)) 0 0 1 1 = ⟨0, 0, 0, 0⟩ := by
    simp only [flux_vanleer, vanleer_fp, vanleer_fm, cSound,
      div_self (ne_of_gt hc)]
    rw [if_neg (by norm_num), if_neg (by norm_num), if_neg (by norm_num),
      if_neg (by norm_num)]
    simp only [Vec4.mk.injEq]
    norm_num
  intro h
  rw [hdisp, hval] at h
  have h0 := congrArg Vec4.rho h
  simp only [physFlux] at h0
  rw [one_mul] at h0
  exact absurd h0.symm (ne_of_gt hc)

/-- C2 amended: for every recognized scheme identifier, when the left and
right states coincide (with positive density and pressure, gam above one,
an exact solver that returns the common state at equal inputs for the
Godunov case, and, for the van Leer kernel only, the common normal
velocity not exactly at the sonic points vx = c or vx = -c, where van
Leer returns the zero flux), the dispatched flux equals the exact physical
flux of the common state; and the uniform-flow scenario rho = 1, vx = 2,
vy = 0, p = 1 with gam = 7/5 yields the analytic flux
(2, 4+1, 0, 2*(gam/(gam-1)+2)) through every recognized kernel. -/
theorem convectiveFlux_consistency :
    (∀ iFlux ∈ fluxSchemes, ∀ (riemann : RiemannSolver)
      (gam rho vx vy p : ℝ) (f0 : Vec4),
      1 < gam → 0 < rho → 0 < p →
      (iFlux = GOD → riemann rho rho vx vx p p
        (cSound gam rho p) (cSound gam rho p) 0 = (rho, vx, p)) →
      (iFlux = VANLEER → |vx| ≠ cSound gam rho p) →
      convectiveFlux iFlux riemann gam rho rho vx vx vy vy p p f0
        = physFlux gam rho vx vy p)
    ∧ (∀ iFlux ∈ fluxSchemes, ∀ (riemann : RiemannSolver) (f0 : Vec4),
      (iFlux = GOD → riemann 1 1 2 2 1 1
        (cSound (7/5) 1 1) (cSound (7/5) 1 1) 0 = (1, 2, 1)) →
      convectiveFlux iFlux riemann (7/5) 1 1 2 2 0 0 1 1 f0
        = ⟨2, 4 + 1, 0, 2 * ((7/5) / ((7/5) - 1) + 2)⟩) := by
  have main : ∀ iFlux ∈ fluxSchemes, ∀ (riemann : RiemannSolver)
      (gam rho vx vy p : ℝ) (f0 : Vec4),
      1 < gam → 0 < rho → 0 < p →
      (iFlux = GOD → riemann rho rho vx vx p p
        (cSound gam rho p) (cSound gam rho p) 0 = (rho, vx, p)) →
      (iFlux = VANLEER → |vx| ≠ cSound gam rho p) →
      convectiveFlux iFlux riemann gam rho rho vx vx vy vy p p f0
        = physFlux gam rho vx vy p := by
    intro iFlux hs riemann gam rho vx vy p f0 hgam hrho hp hgod hvl
    have hgam1 : gam ≠ 1 := ne_of_gt hgam
    simp only [fluxSchemes, List.mem_cons, List.not_mem_nil, or_false] at hs
    rcases hs with h | h | h | h | h | h | h | h | h | h | h
    · subst h
      rw [convectiveFlux_god]
      exact flux_god_consistent riemann gam rho vx vy p hgam1 (hgod rfl)
    · subst h
      rw [convectiveFlux_roe]
      exact flux_roe_consistent gam rho vx vy p
    · subst h
      rw [convectiveFlux_hll]
      exact flux_hll_consistent gam rho vx vy p hgam hrho hp
    · subst h
      rw [convectiveFlux_hlle]
      exact flux_hlle_consistent gam rho vx vy p hgam hrho hp
    · subst h
      rw [convectiveFlux_hllc]
      exact flux_hllc_consistent gam rho vx vy p hgam hrho hp
    · subst h
      rw [convectiveFlux_lxf]
      exact flux_lxf_consistent gam rho vx vy p
    · subst h
      rw [convectiveFlux_stw]
      exact flux_stw_consistent gam rho vx vy p hgam hrho hp
    · subst h
      rw [convectiveFlux_cen]
      exact flux_cen_consistent gam rho vx vy p
    · subst h
      rw [convectiveFlux_ausmd]
      exact flux_ausmd_consistent gam rho vx vy p hgam hrho hp
    · subst h
      rw [convectiveFlux_ausmdv]
      exact flux_ausmdv_consistent gam rho vx vy p hgam hrho hp
    · subst h
      rw [convectiveFlux_vanleer]
      exact flux_vanleer_consistent gam rho vx vy p hgam hrho hp (hvl rfl)
  refine ⟨main, ?_⟩
  intro iFlux hs riemann f0 hgod
  have hsonic : |(2:ℝ)| ≠ cSound (7/5) 1 1 := by
    have hlt : cSound (7/5) 1 1 < 2 := by
      simp only [cSound]
      exact (Real.sqrt_lt' (by norm_num)).mpr (by norm_num)
    rw [show |(2:ℝ)| = 2 from abs_of_pos (by norm_num)]
    exact (ne_of_lt hlt).symm
  have h := main iFlux hs riemann (7/5) 1 2 0 1 f0
    (by norm_num) (by norm_num) (by norm_num) hgod (fun _ => hsonic)
  rw [h]
  simp only [physFlux, consE, gam1q, Vec4.mk.injEq]
  norm_num

/-- C2 witness: the HLL kernel at the uniform-flow scenario. -/
theorem convectiveFlux_consistency_witness :
    convectiveFlux HLL (fun _ _ _ _ _ _ _ _ _ => ((0:ℝ), (0:ℝ), (0:ℝ)))
        (7/5) 1 1 2 2 0 0 1 1 ⟨0, 0, 0, 0⟩
      = ⟨2, 4 + 1, 0, 2 * ((7/5) / ((7/5) - 1) + 2)⟩ :=
  (convectiveFlux_consistency).2 HLL (by decide)
    (fun _ _ _ _ _ _ _ _ _ => ((0:ℝ), (0:ℝ), (0:ℝ))) ⟨0, 0, 0, 0⟩
    (fun he => absurd he (by decide))

/-! ## Reflection-symmetry helper lemmas (for claim C4).  The mirror
transform swaps the left and right states and negates both velocity
components. -/

/-- Maximum of a negation with zero. -/
theorem max_neg_zero (a : ℝ) : max (-a) 0 = -(min a 0) := by
  rcases le_total a 0 with h | h
  · rw [min_eq_left h, max_eq_left (by linarith : (0:ℝ) ≤ -a)]
  · rw [min_eq_right h, max_eq_right (by linarith : -a ≤ 0), neg_zero]

/-- Minimum of a negation with zero. -/
theorem min_neg_zero (a : ℝ) : min (-a) 0 = -(max a 0) := by
  rcases le_total a 0 with h | h
  · rw [max_eq_right h, min_eq_right (by linarith : (0:ℝ) ≤ -a), neg_zero]
  · rw [max_eq_left h, min_eq_left (by linarith : -a ≤ 0)]

/-- The Roe average under the mirror transform. -/
theorem roeAvg_mirror (rhoL rhoR qL qR : ℝ) :
    roeAvg rhoR rhoL (-qR) (-qL) = - roeAvg rhoL rhoR qL qR := by
  simp only [roeAvg]
  ring

/-- The Roe average is symmetric under a plain swap of the sides. -/
theorem roeAvg_swap (rhoL rhoR qL qR : ℝ) :
    roeAvg rhoR rhoL qR qL = roeAvg rhoL rhoR qL qR := by
  simp only [roeAvg]
  ring

/-- The enthalpy is invariant under negation of both velocities. -/
theorem enthalpy_neg (gam rho vx vy p : ℝ) :
    enthalpy gam rho (-vx) (-vy) p = enthalpy gam rho vx vy p := by
  simp only [enthalpy, consE]
  ring

/-- The Roe-averaged velocity flips sign under the mirror transform. -/
theorem roe_vxBar_mirror (rhoL rhoR vxL vxR : ℝ) :
    roe_vxBar rhoR rhoL (-vxR) (-vxL) = - roe_vxBar rhoL rhoR vxL vxR :=
  roeAvg_mirror rhoL rhoR vxL vxR

/-- The Roe-averaged enthalpy is invariant under the mirror transform. -/
theorem roe_Hbar_mirror (gam rhoL rhoR vxL vxR vyL vyR pL pR : ℝ) :
    roe_Hbar gam rhoR rhoL (-vxR) (-vxL) (-vyR) (-vyL) pR pL
      = roe_Hbar gam rhoL rhoR vxL vxR vyL vyR pL pR := by
  simp only [roe_Hbar, enthalpy_neg]
  exact roeAvg_swap _ _ _ _

/-- The Roe-averaged sound speed is invariant under the mirror
transform. -/
theorem roe_cBar_mirror (gam rhoL rhoR vxL vxR vyL vyR pL pR : ℝ) :
    roe_cBar gam rhoR rhoL (-vxR) (-vxL) (-vyR) (-vyL) pR pL
      = roe_cBar gam rhoL rhoR vxL vxR vyL vyR pL pR := by
  simp only [roe_cBar, roe_Hbar_mirror, roe_vxBar_mirror]
  exact congrArg Real.sqrt (by ring)

/-- The entropy-fix spread is invariant under the mirror transform of the
three eigenvalues. -/
theorem roe_da_neg (a al ar : ℝ) :
    roe_da (-a) (-ar) (-al) = roe_da a al ar := by
  simp only [roe_da]
  rw [show -a - -ar = ar - a from by ring, show -al - -a = a - al from by ring,
    max_assoc, max_comm (ar - a) (a - al), ← max_assoc]

/-- The entropy fix depends on the eigenvalue only through its absolute
value and square. -/
theorem entropyFix_neg (a da : ℝ) : entropyFix (-a) da = entropyFix a da := by
  simp only [entropyFix, abs_neg, neg_mul_neg]

/-- Central kernel symmetry: mass flips sign, momentum is preserved. -/
theorem flux_cen_sym (gam rhoL rhoR vxL vxR vyL vyR pL pR : ℝ) :
    (flux_cen gam rhoR rhoL (-vxR) (-vxL) (-vyR) (-vyL) pR pL).rho
      = - (flux_cen gam rhoL rhoR vxL vxR vyL vyR pL pR).rho
    ∧ (flux_cen gam rhoR rhoL (-vxR) (-vxL) (-vyR) (-vyL) pR pL).mx
      = (flux_cen gam rhoL rhoR vxL vxR vyL vyR pL pR).mx
    ∧ (flux_cen gam rhoR rhoL (-vxR) (-vxL) (-vyR) (-vyL) pR pL).my
      = (flux_cen gam rhoL rhoR vxL vxR vyL vyR pL pR).my := by
  simp only [flux_cen, physFlux]
  exact ⟨by ring, by ring, by ring⟩

/-- Lax-Friedrichs kernel symmetry. -/
theorem flux_lxf_sym (gam rhoL rhoR vxL vxR vyL vyR pL pR : ℝ) :
    (flux_lxf gam rhoR rhoL (-vxR) (-vxL) (-vyR) (-vyL) pR pL).rho
      = - (flux_lxf gam rhoL rhoR vxL vxR vyL vyR pL pR).rho
    ∧ (flux_lxf gam rhoR rhoL (-vxR) (-vxL) (-vyR) (-vyL) pR pL).mx
      = (flux_lxf gam rhoL rhoR vxL vxR vyL vyR pL pR).mx
    ∧ (flux_lxf gam rhoR rhoL (-vxR) (-vxL) (-vyR) (-vyL) pR pL).my
      = (flux_lxf gam rhoL rhoR vxL vxR vyL vyR pL pR).my := by
  have ha : max (|(-vxL)| + cSound gam rhoL pL) (|(-vxR)| + cSound gam rhoR pR)
      = max (|vxR| + cSound gam rhoR pR) (|vxL| + cSound gam rhoL pL) := by
    rw [abs_neg, abs_neg, max_comm]
  simp only [flux_lxf, physFlux, ha]
  exact ⟨by ring, by ring, by ring⟩

/-- Steger-Warming kernel symmetry: the positive split of the mirrored
left state is the negated negative split of the right state and vice
versa. -/
theorem flux_stw_sym (gam rhoL rhoR vxL vxR vyL vyR pL pR : ℝ) :
    (flux_stw gam rhoR rhoL (-vxR) (-vxL) (-vyR) (-vyL) pR pL).rho
      = - (flux_stw gam rhoL rhoR vxL vxR vyL vyR pL pR).rho
    ∧ (flux_stw gam rhoR rhoL (-vxR) (-vxL) (-vyR) (-vyL) pR pL).mx
      = (flux_stw gam rhoL rhoR vxL vxR vyL vyR pL pR).mx
    ∧ (flux_stw gam rhoR rhoL (-vxR) (-vxL) (-vyR) (-vyL) pR pL).my
      = (flux_stw gam rhoL rhoR vxL vxR vyL vyR pL pR).my := by
  have h1 : max (-vxR - cSound gam rhoR pR) 0
      = -(min (vxR + cSound gam rhoR pR) 0) := by
    rw [show -vxR - cSound gam rhoR pR = -(vxR + cSound gam rhoR pR) from
      by ring]
    exact max_neg_zero _
  have h2 : max (-vxR) 0 = -(min vxR 0) := max_neg_zero _
  have h3 : max (-vxR + cSound gam rhoR pR) 0
      = -(min (vxR - cSound gam rhoR pR) 0) := by
    rw [show -vxR + cSound gam rhoR pR = -(vxR - cSound gam rhoR pR) from
      by ring]
    exact max_neg_zero _
  have h4 : min (-vxL - cSound gam rhoL pL) 0
      = -(max (vxL + cSound gam rhoL pL) 0) := by
    rw [show -vxL - cSound gam rhoL pL = -(vxL + cSound gam rhoL pL) from
      by ring]
    exact min_neg_zero _
  have h5 : min (-vxL) 0 = -(max vxL 0) := min_neg_zero _
  have h6 : min (-vxL + cSound gam rhoL pL) 0
      = -(max (vxL - cSound gam rhoL pL) 0) := by
    rw [show -vxL + cSound gam rhoL pL = -(vxL - cSound gam rhoL pL) from
      by ring]
    exact min_neg_zero _
  simp only [flux_stw, h1, h2, h3, h4, h5, h6]
  exact ⟨by ring, by ring, by ring⟩

/-- Godunov kernel symmetry, given that the exact Riemann solver satisfies
the mirror property: on swapped states with negated velocities it returns
the same star density and pressure and the negated star velocity. -/
theorem flux_god_sym (riemann : RiemannSolver)
    (gam rhoL rhoR vxL vxR vyL vyR pL pR : ℝ)
    (hmir : riemann rhoR rhoL (-vxR) (-vxL) pR pL
        (cSound gam rhoR pR) (cSound gam rhoL pL) 0
      = ((riemann rhoL rhoR vxL vxR pL pR
            (cSound gam rhoL pL) (cSound gam rhoR pR) 0).1,
         -(riemann rhoL rhoR vxL vxR pL pR
            (cSound gam rhoL pL) (cSound gam rhoR pR) 0).2.1,
         (riemann rhoL rhoR vxL vxR pL pR
            (cSound gam rhoL pL) (cSound gam rhoR pR) 0).2.2)) :
    (flux_god riemann gam rhoR rhoL (-vxR) (-vxL) (-vyR) (-vyL) pR pL).rho
      = - (flux_god riemann gam rhoL rhoR vxL vxR vyL vyR pL pR).rho
    ∧ (flux_god riemann gam rhoR rhoL (-vxR) (-vxL) (-vyR) (-vyL) pR pL).mx
      = (flux_god riemann gam rhoL rhoR vxL vxR vyL vyR pL pR).mx
    ∧ (flux_god riemann gam rhoR rhoL (-vxR) (-vxL) (-vyR) (-vyL) pR pL).my
      = (flux_god riemann gam rhoL rhoR vxL vxR vyL vyR pL pR).my := by
  simp only [flux_god, hmir]
  generalize (riemann rhoL rhoR vxL vxR pL pR
    (cSound gam rhoL pL) (cSound gam rhoR pR) 0).2.1 = u
  generalize (riemann rhoL rhoR vxL vxR pL pR
    (cSound gam rhoL pL) (cSound gam rhoR pR) 0).1 = r
  generalize (riemann rhoL rhoR vxL vxR pL pR
    (cSound gam rhoL pL) (cSound gam rhoR pR) 0).2.2 = q
  rcases lt_trichotomy u 0 with hu | hu | hu
  · rw [if_pos (by linarith : -u > 0), if_neg (by linarith : ¬ u > 0)]
    exact ⟨by ring, by ring, by ring⟩
  · subst hu
    exact ⟨by ring, by ring, by ring⟩
  · rw [if_neg (by linarith : ¬ -u > 0), if_pos hu]
    exact ⟨by ring, by ring, by ring⟩

set_option maxHeartbeats 2000000 in
/-- The squared Roe-averaged sound speed is positive for admissible
states: the square-root-weighted average of the enthalpies exceeds half
the squared Roe-averaged velocity by a convexity argument. -/
theorem roe_cBar_pos (gam rhoL rhoR vxL vxR vyL vyR pL pR : ℝ)
    (hgam : 1 < gam) (hrL : 0 < rhoL) (hrR : 0 < rhoR)
    (hpL : 0 < pL) (hpR : 0 < pR) :
    0 < roe_cBar gam rhoL rhoR vxL vxR vyL vyR pL pR := by
  have hsL : (0:ℝ) < Real.sqrt rhoL := Real.sqrt_pos.mpr hrL
  have hsR : (0:ℝ) < Real.sqrt rhoR := Real.sqrt_pos.mpr hrR
  have hg1 : (0:ℝ) < gam - 1 := by linarith
  have hK : (0:ℝ) < gam / (gam - 1) := div_pos (by linarith) hg1
  simp only [roe_cBar]
  apply Real.sqrt_pos.mpr
  have heq : roe_Hbar gam rhoL rhoR vxL vxR vyL vyR pL pR
      - 0.5 * (roe_vxBar rhoL rhoR vxL vxR * roe_vxBar rhoL rhoR vxL vxR
             + roe_vxBar rhoL rhoR vyL vyR * roe_vxBar rhoL rhoR vyL vyR)
      = (gam / (gam - 1) * pL * (Real.sqrt rhoL * Real.sqrt rhoL) / rhoL
         + gam / (gam - 1) * pR * (Real.sqrt rhoR * Real.sqrt rhoR) / rhoR
         + Real.sqrt rhoL * Real.sqrt rhoR
           * (gam / (gam - 1) * pL / rhoL + gam / (gam - 1) * pR / rhoR
              + 0.5 * ((vxL - vxR) * (vxL - vxR)
                     + (vyL - vyR) * (vyL - vyR))))
        / ((Real.sqrt rhoL + Real.sqrt rhoR)
           * (Real.sqrt rhoL + Real.sqrt rhoR)) := by
    have h1 : rhoL ≠ 0 := ne_of_gt hrL
    have h2 : rhoR ≠ 0 := ne_of_gt hrR
    have h3 : Real.sqrt rhoL + Real.sqrt rhoR ≠ 0 := by positivity
    have h4 : gam - 1 ≠ 0 := ne_of_gt hg1
    simp only [roe_Hbar, roe_vxBar, roeAvg, enthalpy, consE, gam1q]
    set sL := Real.sqrt rhoL
    set sR := Real.sqrt rhoR
    field_simp
    ring
  rw [heq]
  have ht1 : (0:ℝ) < gam / (gam - 1) * pL
      * (Real.sqrt rhoL * Real.sqrt rhoL) / rhoL := by positivity
  have ht2 : (0:ℝ) < gam / (gam - 1) * pR
      * (Real.sqrt rhoR * Real.sqrt rhoR) / rhoR := by positivity
  have ht3 : (0:ℝ) ≤ Real.sqrt rhoL * Real.sqrt rhoR
      * (gam / (gam - 1) * pL / rhoL + gam / (gam - 1) * pR / rhoR
         + 0.5 * ((vxL - vxR) * (vxL - vxR) + (vyL - vyR) * (vyL - vyR))) := by
    apply mul_nonneg (mul_nonneg hsL.le hsR.le)
    have hq1 : (0:ℝ) < gam / (gam - 1) * pL / rhoL := by positivity
    have hq2 : (0:ℝ) < gam / (gam - 1) * pR / rhoR := by positivity
    nlinarith [sq_nonneg (vxL - vxR), sq_nonneg (vyL - vyR)]
  have hD : (0:ℝ) < (Real.sqrt rhoL + Real.sqrt rhoR)
      * (Real.sqrt rhoL + Real.sqrt rhoR) := by positivity
  have hnum : (0:ℝ) < gam / (gam - 1) * pL
      * (Real.sqrt rhoL * Real.sqrt rhoL) / rhoL
      + gam / (gam - 1) * pR * (Real.sqrt rhoR * Real.sqrt rhoR) / rhoR
      + Real.sqrt rhoL * Real.sqrt rhoR
        * (gam / (gam - 1) * pL / rhoL + gam / (gam - 1) * pR / rhoR
           + 0.5 * ((vxL - vxR) * (vxL - vxR)
                  + (vyL - vyR) * (vyL - vyR))) := by linarith
  have : (0:ℝ) < gam - 1 := hg1
  simp only [gam1]
  exact mul_pos this (div_pos hnum hD)

set_option maxHeartbeats 4000000 in
/-- Roe kernel symmetry: the Roe averages flip sign, the entropy-fixed
eigenvalue moduli of the acoustic waves exchange places, and the wave
strengths pick up matching signs; the Roe sound speed is positive by
admissibility, which the wave-strength exchange uses. -/
theorem flux_roe_sym (gam rhoL rhoR vxL vxR vyL vyR pL pR : ℝ)
    (hgam : 1 < gam) (hrL : 0 < rhoL) (hrR : 0 < rhoR)
    (hpL : 0 < pL) (hpR : 0 < pR) :
    (flux_roe gam rhoR rhoL (-vxR) (-vxL) (-vyR) (-vyL) pR pL).rho
      = - (flux_roe gam rhoL rhoR vxL vxR vyL vyR pL pR).rho
    ∧ (flux_roe gam rhoR rhoL (-vxR) (-vxL) (-vyR) (-vyL) pR pL).mx
      = (flux_roe gam rhoL rhoR vxL vxR vyL vyR pL pR).mx
    ∧ (flux_roe gam rhoR rhoL (-vxR) (-vxL) (-vyR) (-vyL) pR pL).my
      = (flux_roe gam rhoL rhoR vxL vxR vyL vyR pL pR).my := by
  have hcB0 : 0 < roe_cBar gam rhoL rhoR vxL vxR vyL vyR pL pR :=
    roe_cBar_pos gam rhoL rhoR vxL vxR vyL vyR pL pR hgam hrL hrR hpL hpR
  simp only [flux_roe, physFlux, consE, roe_vxBar_mirror, roe_Hbar_mirror,
    roe_cBar_mirror]
  generalize roe_vxBar rhoL rhoR vxL vxR = vB
  generalize roe_vxBar rhoL rhoR vyL vyR = wB
  generalize roe_Hbar gam rhoL rhoR vxL vxR vyL vyR pL pR = HB
  generalize hgen : roe_cBar gam rhoL rhoR vxL vxR vyL vyR pL pR = cB
  generalize cSound gam rhoL pL = scL
  generalize cSound gam rhoR pR = scR
  rw [hgen] at hcB0
  have hcB : cB ≠ 0 := ne_of_gt hcB0
  rw [show -vB - cB = -(vB + cB) from by ring,
    show -vB + cB = -(vB - cB) from by ring,
    show -vxR - scR = -(vxR + scR) from by ring,
    show -vxL - scL = -(vxL + scL) from by ring,
    show -vxR + scR = -(vxR - scR) from by ring,
    show -vxL + scL = -(vxL - scL) from by ring]
  simp only [roe_da_neg, entropyFix_neg]
  refine ⟨?_, ?_, ?_⟩ <;> (field_simp [hcB]; try ring) <;>
    try exact Or.inl trivial

/-- The left signal-speed estimate of the mirrored input is the negated
right signal-speed estimate of the original input. -/
theorem hll_alm_mirror (gam rhoL rhoR vxL vxR vyL vyR pL pR : ℝ) :
    hll_alm gam rhoR rhoL (-vxR) (-vxL) (-vyR) (-vyL) pR pL
      = - hll_arp gam rhoL rhoR vxL vxR vyL vyR pL pR := by
  simp only [hll_alm, hll_arp, roe_vxBar_mirror, roe_cBar_mirror]
  rw [show -vxR - cSound gam rhoR pR = -(vxR + cSound gam rhoR pR) from
      by ring,
    show - roe_vxBar rhoL rhoR vxL vxR
        - roe_cBar gam rhoL rhoR vxL vxR vyL vyR pL pR
      = -(roe_vxBar rhoL rhoR vxL vxR
        + roe_cBar gam rhoL rhoR vxL vxR vyL vyR pL pR) from by ring,
    min_neg_neg]

/-- The right signal-speed estimate of the mirrored input is the negated
left signal-speed estimate of the original input. -/
theorem hll_arp_mirror (gam rhoL rhoR vxL vxR vyL vyR pL pR : ℝ) :
    hll_arp gam rhoR rhoL (-vxR) (-vxL) (-vyR) (-vyL) pR pL
      = - hll_alm gam rhoL rhoR vxL vxR vyL vyR pL pR := by
  simp only [hll_alm, hll_arp, roe_vxBar_mirror, roe_cBar_mirror]
  rw [show -vxL + cSound gam rhoL pL = -(vxL - cSound gam rhoL pL) from
      by ring,
    show - roe_vxBar rhoL rhoR vxL vxR
        + roe_cBar gam rhoL rhoR vxL vxR vyL vyR pL pR
      = -(roe_vxBar rhoL rhoR vxL vxR
        - roe_cBar gam rhoL rhoR vxL vxR vyL vyR pL pR) from by ring,
    max_neg_neg]

/-- The two HLL signal-speed estimates are ordered. -/
theorem hll_alm_le_arp (gam rhoL rhoR vxL vxR vyL vyR pL pR : ℝ) :
    hll_alm gam rhoL rhoR vxL vxR vyL vyR pL pR
      ≤ hll_arp gam rhoL rhoR vxL vxR vyL vyR pL pR := by
  have h1 : hll_alm gam rhoL rhoR vxL vxR vyL vyR pL pR
      ≤ roe_vxBar rhoL rhoR vxL vxR
        - roe_cBar gam rhoL rhoR vxL vxR vyL vyR pL pR := min_le_right _ _
  have h2 : roe_vxBar rhoL rhoR vxL vxR
        + roe_cBar gam rhoL rhoR vxL vxR vyL vyR pL pR
      ≤ hll_arp gam rhoL rhoR vxL vxR vyL vyR pL pR := le_max_right _ _
  have h3 : 0 ≤ roe_cBar gam rhoL rhoR vxL vxR vyL vyR pL pR :=
    Real.sqrt_nonneg _
  linarith

/-- HLL kernel symmetry. -/
theorem flux_hll_sym (gam rhoL rhoR vxL vxR vyL vyR pL pR : ℝ) :
    (flux_hll gam rhoR rhoL (-vxR) (-vxL) (-vyR) (-vyL) pR pL).rho
      = - (flux_hll gam rhoL rhoR vxL vxR vyL vyR pL pR).rho
    ∧ (flux_hll gam rhoR rhoL (-vxR) (-vxL) (-vyR) (-vyL) pR pL).mx
      = (flux_hll gam rhoL rhoR vxL vxR vyL vyR pL pR).mx
    ∧ (flux_hll gam rhoR rhoL (-vxR) (-vxL) (-vyR) (-vyL) pR pL).my
      = (flux_hll gam rhoL rhoR vxL vxR vyL vyR pL pR).my := by
  have hle := hll_alm_le_arp gam rhoL rhoR vxL vxR vyL vyR pL pR
  simp only [flux_hll, hll_alm_mirror, hll_arp_mirror]
  by_cases h1 : hll_alm gam rhoL rhoR vxL vxR vyL vyR pL pR > 0
  · have hc1 : ¬ - hll_arp gam rhoL rhoR vxL vxR vyL vyR pL pR > 0 := by
      intro hcon
      linarith
    have hc2 : - hll_alm gam rhoL rhoR vxL vxR vyL vyR pL pR < 0 := by
      linarith
    rw [if_pos h1, if_neg hc1, if_pos hc2]
    simp only [physFlux]
    exact ⟨by ring, by ring, by ring⟩
  · rw [if_neg h1]
    by_cases h2 : hll_arp gam rhoL rhoR vxL vxR vyL vyR pL pR < 0
    · have hc1 : - hll_arp gam rhoL rhoR vxL vxR vyL vyR pL pR > 0 := by
        linarith
      rw [if_pos h2, if_pos hc1]
      simp only [physFlux]
      exact ⟨by ring, by ring, by ring⟩
    · have h1x : hll_alm gam rhoL rhoR vxL vxR vyL vyR pL pR ≤ 0 := by
        simp only [gt_iff_lt, not_lt] at h1
        exact h1
      have h2x : 0 ≤ hll_arp gam rhoL rhoR vxL vxR vyL vyR pL pR := by
        simp only [not_lt] at h2
        exact h2
      have hc1 : ¬ - hll_arp gam rhoL rhoR vxL vxR vyL vyR pL pR > 0 := by
        intro hcon
        linarith
      have hc2 : ¬ - hll_alm gam rhoL rhoR vxL vxR vyL vyR pL pR < 0 := by
        intro hcon
        linarith
      rw [if_neg h2, if_neg hc1, if_neg hc2]
      simp only [physFlux, consState, consE]
      exact ⟨by ring, by ring, by ring⟩

/-- The Einfeldt wave-speed correction is invariant under the mirror
transform. -/
theorem hlle_d_mirror (gam rhoL rhoR vxL vxR pL pR : ℝ) :
    hlle_d gam rhoR rhoL (-vxR) (-vxL) pR pL
      = hlle_d gam rhoL rhoR vxL vxR pL pR := by
  simp only [hlle_d]
  exact congrArg Real.sqrt (by ring)

/-- HLLE kernel symmetry. -/
theorem flux_hlle_sym (gam rhoL rhoR vxL vxR vyL vyR pL pR : ℝ) :
    (flux_hlle gam rhoR rhoL (-vxR) (-vxL) (-vyR) (-vyL) pR pL).rho
      = - (flux_hlle gam rhoL rhoR vxL vxR vyL vyR pL pR).rho
    ∧ (flux_hlle gam rhoR rhoL (-vxR) (-vxL) (-vyR) (-vyL) pR pL).mx
      = (flux_hlle gam rhoL rhoR vxL vxR vyL vyR pL pR).mx
    ∧ (flux_hlle gam rhoR rhoL (-vxR) (-vxL) (-vyR) (-vyL) pR pL).my
      = (flux_hlle gam rhoL rhoR vxL vxR vyL vyR pL pR).my := by
  have hd : 0 ≤ hlle_d gam rhoL rhoR vxL vxR pL pR := Real.sqrt_nonneg _
  have h1 : min (vxL - cSound gam rhoL pL)
        (roe_vxBar rhoL rhoR vxL vxR - hlle_d gam rhoL rhoR vxL vxR pL pR)
      ≤ roe_vxBar rhoL rhoR vxL vxR - hlle_d gam rhoL rhoR vxL vxR pL pR :=
    min_le_right _ _
  have h2 : roe_vxBar rhoL rhoR vxL vxR + hlle_d gam rhoL rhoR vxL vxR pL pR
      ≤ max (vxR + cSound gam rhoR pR)
        (roe_vxBar rhoL rhoR vxL vxR + hlle_d gam rhoL rhoR vxL vxR pL pR) :=
    le_max_right _ _
  simp only [flux_hlle, hlle_d_mirror, roe_vxBar_mirror]
  rw [show -vxR - cSound gam rhoR pR = -(vxR + cSound gam rhoR pR) from
      by ring,
    show - roe_vxBar rhoL rhoR vxL vxR - hlle_d gam rhoL rhoR vxL vxR pL pR
      = -(roe_vxBar rhoL rhoR vxL vxR + hlle_d gam rhoL rhoR vxL vxR pL pR)
      from by ring,
    show -vxL + cSound gam rhoL pL = -(vxL - cSound gam rhoL pL) from
      by ring,
    show - roe_vxBar rhoL rhoR vxL vxR + hlle_d gam rhoL rhoR vxL vxR pL pR
      = -(roe_vxBar rhoL rhoR vxL vxR - hlle_d gam rhoL rhoR vxL vxR pL pR)
      from by ring,
    min_neg_neg, max_neg_neg]
  by_cases hb1 : min (vxL - cSound gam rhoL pL)
      (roe_vxBar rhoL rhoR vxL vxR - hlle_d gam rhoL rhoR vxL vxR pL pR) > 0
  · have hc1 : ¬ - max (vxR + cSound gam rhoR pR)
        (roe_vxBar rhoL rhoR vxL vxR + hlle_d gam rhoL rhoR vxL vxR pL pR)
        > 0 := by
      intro hcon
      linarith
    have hc2 : - min (vxL - cSound gam rhoL pL)
        (roe_vxBar rhoL rhoR vxL vxR - hlle_d gam rhoL rhoR vxL vxR pL pR)
        < 0 := by
      linarith
    rw [if_pos hb1, if_neg hc1, if_pos hc2]
    simp only [physFlux]
    exact ⟨by ring, by ring, by ring⟩
  · rw [if_neg hb1]
    by_cases hb2 : max (vxR + cSound gam rhoR pR)
        (roe_vxBar rhoL rhoR vxL vxR + hlle_d gam rhoL rhoR vxL vxR pL pR) < 0
    · have hc1 : - max (vxR + cSound gam rhoR pR)
          (roe_vxBar rhoL rhoR vxL vxR + hlle_d gam rhoL rhoR vxL vxR pL pR)
          > 0 := by
        linarith
      rw [if_pos hb2, if_pos hc1]
      simp only [physFlux]
      exact ⟨by ring, by ring, by ring⟩
    · have hb1x : min (vxL - cSound gam rhoL pL)
          (roe_vxBar rhoL rhoR vxL vxR - hlle_d gam rhoL rhoR vxL vxR pL pR)
          ≤ 0 := by
        simp only [gt_iff_lt, not_lt] at hb1
        exact hb1
      have hb2x : 0 ≤ max (vxR + cSound gam rhoR pR)
          (roe_vxBar rhoL rhoR vxL vxR
            + hlle_d gam rhoL rhoR vxL vxR pL pR) := by
        simp only [not_lt] at hb2
        exact hb2
      have hc1 : ¬ - max (vxR + cSound gam rhoR pR)
          (roe_vxBar rhoL rhoR vxL vxR + hlle_d gam rhoL rhoR vxL vxR pL pR)
          > 0 := by
        intro hcon
        linarith
      have hc2 : ¬ - min (vxL - cSound gam rhoL pL)
          (roe_vxBar rhoL rhoR vxL vxR - hlle_d gam rhoL rhoR vxL vxR pL pR)
          < 0 := by
        intro hcon
        linarith
      rw [if_neg hb2, if_neg hc1, if_neg hc2]
      simp only [physFlux, consState, consE]
      exact ⟨by ring, by ring, by ring⟩

/-- The positive AUSMD split of a mirrored state is the negated negative
split of the original state (same pressure split). -/
theorem ausmd_plus_mirror (alpha cm vx p : ℝ) :
    (ausmd_plus alpha cm (-vx) p).1 = -(ausmd_minus alpha cm vx p).1
    ∧ (ausmd_plus alpha cm (-vx) p).2 = (ausmd_minus alpha cm vx p).2 := by
  simp only [ausmd_plus, ausmd_minus, abs_neg]
  split_ifs with h
  · exact ⟨by ring, by ring⟩
  · exact ⟨by ring, by ring⟩

/-- The negative AUSMD split of a mirrored state is the negated positive
split of the original state (same pressure split). -/
theorem ausmd_minus_mirror (alpha cm vx p : ℝ) :
    (ausmd_minus alpha cm (-vx) p).1 = -(ausmd_plus alpha cm vx p).1
    ∧ (ausmd_minus alpha cm (-vx) p).2 = (ausmd_plus alpha cm vx p).2 := by
  simp only [ausmd_plus, ausmd_minus, abs_neg]
  split_ifs with h
  · exact ⟨by ring, by ring⟩
  · exact ⟨by ring, by ring⟩

/-- AUSMD kernel symmetry. -/
theorem flux_ausmd_sym (gam rhoL rhoR vxL vxR vyL vyR pL pR : ℝ) :
    (flux_ausmd gam rhoR rhoL (-vxR) (-vxL) (-vyR) (-vyL) pR pL).rho
      = - (flux_ausmd gam rhoL rhoR vxL vxR vyL vyR pL pR).rho
    ∧ (flux_ausmd gam rhoR rhoL (-vxR) (-vxL) (-vyR) (-vyL) pR pL).mx
      = (flux_ausmd gam rhoL rhoR vxL vxR vyL vyR pL pR).mx
    ∧ (flux_ausmd gam rhoR rhoL (-vxR) (-vxL) (-vyR) (-vyL) pR pL).my
      = (flux_ausmd gam rhoL rhoR vxL vxR vyL vyR pL pR).my := by
  have hcm : max (cSound gam rhoR pR) (cSound gam rhoL pL)
      = max (cSound gam rhoL pL) (cSound gam rhoR pR) := max_comm _ _
  have hal : 2 * pR / rhoR / (pR / rhoR + pL / rhoL)
      = 2 * pR / rhoR / (pL / rhoL + pR / rhoR) := by ring
  have har : 2 * pL / rhoL / (pR / rhoR + pL / rhoL)
      = 2 * pL / rhoL / (pL / rhoL + pR / rhoR) := by ring
  simp only [flux_ausmd, enthalpy_neg, hcm, hal, har]
  rw [(ausmd_plus_mirror (2 * pR / rhoR / (pL / rhoL + pR / rhoR))
      (max (cSound gam rhoL pL) (cSound gam rhoR pR)) vxR pR).1,
    (ausmd_plus_mirror (2 * pR / rhoR / (pL / rhoL + pR / rhoR))
      (max (cSound gam rhoL pL) (cSound gam rhoR pR)) vxR pR).2,
    (ausmd_minus_mirror (2 * pL / rhoL / (pL / rhoL + pR / rhoR))
      (max (cSound gam rhoL pL) (cSound gam rhoR pR)) vxL pL).1,
    (ausmd_minus_mirror (2 * pL / rhoL / (pL / rhoL + pR / rhoR))
      (max (cSound gam rhoL pL) (cSound gam rhoR pR)) vxL pL).2]
  generalize (ausmd_plus (2 * pL / rhoL / (pL / rhoL + pR / rhoR))
    (max (cSound gam rhoL pL) (cSound gam rhoR pR)) vxL pL).1 = u1
  generalize (ausmd_minus (2 * pR / rhoR / (pL / rhoL + pR / rhoR))
    (max (cSound gam rhoL pL) (cSound gam rhoR pR)) vxR pR).1 = m1
  rw [show -m1 * rhoR + -u1 * rhoL = -(u1 * rhoL + m1 * rhoR) from by ring,
    abs_neg]
  exact ⟨by ring, by ring, by ring⟩

/-- The positive van Leer split flux of a mirrored state against the
negative split flux of the original state. -/
theorem vanleer_fp_mirror (gam rho vx vy p : ℝ) :
    (vanleer_fp gam rho (-vx) (-vy) p).rho
      = -(vanleer_fm gam rho vx vy p).rho
    ∧ (vanleer_fp gam rho (-vx) (-vy) p).mx
      = (vanleer_fm gam rho vx vy p).mx
    ∧ (vanleer_fp gam rho (-vx) (-vy) p).my
      = (vanleer_fm gam rho vx vy p).my := by
  have hM : -vx / cSound gam rho p = -(vx / cSound gam rho p) :=
    neg_div _ _
  simp only [vanleer_fp, vanleer_fm, hM]
  by_cases h1 : vx / cSound gam rho p < -1
  · rw [if_pos (by linarith : -(vx / cSound gam rho p) > 1), if_pos h1]
    exact ⟨by ring, by ring, by ring⟩
  · by_cases h2 : vx / cSound gam rho p < 1 ∧ vx / cSound gam rho p > -1
    · rw [if_neg (by intro hcon; linarith [h2.2] :
          ¬ -(vx / cSound gam rho p) > 1),
        if_pos (⟨by linarith [h2.2], by linarith [h2.1]⟩ :
          -(vx / cSound gam rho p) < 1 ∧ -(vx / cSound gam rho p) > -1),
        if_neg h1, if_pos h2]
      exact ⟨by ring, by ring, by ring⟩
    · rw [if_neg (by intro hcon; exact h1 (by linarith) :
          ¬ -(vx / cSound gam rho p) > 1),
        if_neg (by rintro ⟨ha, hb⟩; exact h2 ⟨by linarith, by linarith⟩ :
          ¬ (-(vx / cSound gam rho p) < 1
            ∧ -(vx / cSound gam rho p) > -1)),
        if_neg h1, if_neg h2]
      exact ⟨by ring, by ring, by ring⟩

/-- The negative van Leer split flux of a mirrored state against the
positive split flux of the original state. -/
theorem vanleer_fm_mirror (gam rho vx vy p : ℝ) :
    (vanleer_fm gam rho (-vx) (-vy) p).rho
      = -(vanleer_fp gam rho vx vy p).rho
    ∧ (vanleer_fm gam rho (-vx) (-vy) p).mx
      = (vanleer_fp gam rho vx vy p).mx
    ∧ (vanleer_fm gam rho (-vx) (-vy) p).my
      = (vanleer_fp gam rho vx vy p).my := by
  have hM : -vx / cSound gam rho p = -(vx / cSound gam rho p) :=
    neg_div _ _
  simp only [vanleer_fp, vanleer_fm, hM]
  by_cases h1 : vx / cSound gam rho p > 1
  · rw [if_pos (by linarith : -(vx / cSound gam rho p) < -1), if_pos h1]
    exact ⟨by ring, by ring, by ring⟩
  · by_cases h2 : vx / cSound gam rho p < 1 ∧ vx / cSound gam rho p > -1
    · rw [if_neg (by intro hcon; linarith [h2.1] :
          ¬ -(vx / cSound gam rho p) < -1),
        if_pos (⟨by linarith [h2.2], by linarith [h2.1]⟩ :
          -(vx / cSound gam rho p) < 1 ∧ -(vx / cSound gam rho p) > -1),
        if_neg h1, if_pos h2]
      exact ⟨by ring, by ring, by ring⟩
    · rw [if_neg (by intro hcon; exact h1 (by linarith) :
          ¬ -(vx / cSound gam rho p) < -1),
        if_neg (by rintro ⟨ha, hb⟩; exact h2 ⟨by linarith, by linarith⟩ :
          ¬ (-(vx / cSound gam rho p) < 1
            ∧ -(vx / cSound gam rho p) > -1)),
        if_neg h1, if_neg h2]
      exact ⟨by ring, by ring, by ring⟩

/-- Van Leer kernel symmetry. -/
theorem flux_vanleer_sym (gam rhoL rhoR vxL vxR vyL vyR pL pR : ℝ) :
    (flux_vanleer gam rhoR rhoL (-vxR) (-vxL) (-vyR) (-vyL) pR pL).rho
      = - (flux_vanleer gam rhoL rhoR vxL vxR vyL vyR pL pR).rho
    ∧ (flux_vanleer gam rhoR rhoL (-vxR) (-vxL) (-vyR) (-vyL) pR pL).mx
      = (flux_vanleer gam rhoL rhoR vxL vxR vyL vyR pL pR).mx
    ∧ (flux_vanleer gam rhoR rhoL (-vxR) (-vxL) (-vyR) (-vyL) pR pL).my
      = (flux_vanleer gam rhoL rhoR vxL vxR vyL vyR pL pR).my := by
  simp only [flux_vanleer]
  rw [(vanleer_fp_mirror gam rhoR vxR vyR pR).1,
    (vanleer_fp_mirror gam rhoR vxR vyR pR).2.1,
    (vanleer_fp_mirror gam rhoR vxR vyR pR).2.2,
    (vanleer_fm_mirror gam rhoL vxL vyL pL).1,
    (vanleer_fm_mirror gam rhoL vxL vyL pL).2.1,
    (vanleer_fm_mirror gam rhoL vxL vyL pL).2.2]
  exact ⟨by ring, by ring, by ring⟩

/-- The HLLC contact-speed estimate flips sign under the mirror
transform. -/
theorem hllc_as_mirror (gam rhoL rhoR vxL vxR vyL vyR pL pR : ℝ) :
    hllc_as gam rhoR rhoL (-vxR) (-vxL) (-vyR) (-vyL) pR pL
      = - hllc_as gam rhoL rhoR vxL vxR vyL vyR pL pR := by
  simp only [hllc_as, hll_alm_mirror, hll_arp_mirror]
  generalize hll_alm gam rhoL rhoR vxL vxR vyL vyR pL pR = alm
  generalize hll_arp gam rhoL rhoR vxL vxR vyL vyR pL pR = arp
  rw [show pL - pR + rhoR * -vxR * (-arp - -vxR) - rhoL * -vxL * (-alm - -vxL)
      = -(pR - pL + rhoL * vxL * (alm - vxL) - rhoR * vxR * (arp - vxR))
      from by ring,
    show rhoR * (-arp - -vxR) - rhoL * (-alm - -vxL)
      = rhoL * (alm - vxL) - rhoR * (arp - vxR) from by ring,
    neg_div]

/-- The HLLC star state of a mirrored one-sided state with mirrored wave
and contact speeds: same density and energy factor, negated momenta. -/
theorem hllc_star_mirror (gam rho vx vy p s as : ℝ) :
    (hllc_star gam rho (-vx) (-vy) p (-s) (-as)).rho
      = (hllc_star gam rho vx vy p s as).rho
    ∧ (hllc_star gam rho (-vx) (-vy) p (-s) (-as)).mx
      = -(hllc_star gam rho vx vy p s as).mx
    ∧ (hllc_star gam rho (-vx) (-vy) p (-s) (-as)).my
      = -(hllc_star gam rho vx vy p s as).my := by
  have hfac : rho * (-s - -vx) / (-s - -as) = rho * (s - vx) / (s - as) := by
    rw [show -s - -vx = -(s - vx) from by ring,
      show (-s : ℝ) - -as = -(s - as) from by ring,
      show rho * -(s - vx) = -(rho * (s - vx)) from by ring,
      neg_div_neg_eq]
  simp only [hllc_star, hfac]
  exact ⟨trivial, by ring, by ring⟩

set_option maxHeartbeats 4000000 in
/-- HLLC kernel symmetry: the signal speeds exchange and flip sign, the
contact speed flips sign, and the star states mirror; at a vanishing
contact speed the non-degeneracy of the outer wave speeds (excluded by
the specification as a domain error otherwise) gives the pressure
equality across the contact. -/
theorem flux_hllc_sym (gam rhoL rhoR vxL vxR vyL vyR pL pR : ℝ)
    (hgam : 1 < gam) (hrL : 0 < rhoL) (hrR : 0 < rhoR)
    (hpL : 0 < pL) (hpR : 0 < pR)
    (hdeg : hllc_as gam rhoL rhoR vxL vxR vyL vyR pL pR = 0 →
      hll_alm gam rhoL rhoR vxL vxR vyL vyR pL pR ≠ 0
      ∧ hll_arp gam rhoL rhoR vxL vxR vyL vyR pL pR ≠ 0) :
    (flux_hllc gam rhoR rhoL (-vxR) (-vxL) (-vyR) (-vyL) pR pL).rho
      = - (flux_hllc gam rhoL rhoR vxL vxR vyL vyR pL pR).rho
    ∧ (flux_hllc gam rhoR rhoL (-vxR) (-vxL) (-vyR) (-vyL) pR pL).mx
      = (flux_hllc gam rhoL rhoR vxL vxR vyL vyR pL pR).mx
    ∧ (flux_hllc gam rhoR rhoL (-vxR) (-vxL) (-vyR) (-vyL) pR pL).my
      = (flux_hllc gam rhoL rhoR vxL vxR vyL vyR pL pR).my := by
  have hcL : 0 < cSound gam rhoL pL := Real.sqrt_pos.mpr (by positivity)
  have hcR : 0 < cSound gam rhoR pR := Real.sqrt_pos.mpr (by positivity)
  have halm : hll_alm gam rhoL rhoR vxL vxR vyL vyR pL pR
      ≤ vxL - cSound gam rhoL pL := by
    simp only [hll_alm]
    exact min_le_left _ _
  have harp : vxR + cSound gam rhoR pR
      ≤ hll_arp gam rhoL rhoR vxL vxR vyL vyR pL pR := by
    simp only [hll_arp]
    exact le_max_left _ _
  have hle := hll_alm_le_arp gam rhoL rhoR vxL vxR vyL vyR pL pR
  have hdenlt : rhoL * (hll_alm gam rhoL rhoR vxL vxR vyL vyR pL pR - vxL)
      - rhoR * (hll_arp gam rhoL rhoR vxL vxR vyL vyR pL pR - vxR) < 0 := by
    nlinarith
  simp only [flux_hllc, hll_alm_mirror, hll_arp_mirror, hllc_as_mirror]
  by_cases h1 : hll_alm gam rhoL rhoR vxL vxR vyL vyR pL pR > 0
  · have hc1 : ¬ - hll_arp gam rhoL rhoR vxL vxR vyL vyR pL pR > 0 := by
      intro hcon
      linarith
    have hc2 : - hll_alm gam rhoL rhoR vxL vxR vyL vyR pL pR < 0 := by
      linarith
    rw [if_pos h1, if_neg hc1, if_pos hc2]
    simp only [physFlux]
    exact ⟨by ring, by ring, by ring⟩
  · rw [if_neg h1]
    by_cases h2 : hll_arp gam rhoL rhoR vxL vxR vyL vyR pL pR < 0
    · have hc1 : - hll_arp gam rhoL rhoR vxL vxR vyL vyR pL pR > 0 := by
        linarith
      rw [if_pos h2, if_pos hc1]
      simp only [physFlux]
      exact ⟨by ring, by ring, by ring⟩
    · have h1x : hll_alm gam rhoL rhoR vxL vxR vyL vyR pL pR ≤ 0 := by
        simp only [gt_iff_lt, not_lt] at h1
        exact h1
      have h2x : 0 ≤ hll_arp gam rhoL rhoR vxL vxR vyL vyR pL pR := by
        simp only [not_lt] at h2
        exact h2
      have hc1 : ¬ - hll_arp gam rhoL rhoR vxL vxR vyL vyR pL pR > 0 := by
        intro hcon
        linarith
      have hc2 : ¬ - hll_alm gam rhoL rhoR vxL vxR vyL vyR pL pR < 0 := by
        intro hcon
        linarith
      rw [if_neg h2, if_neg hc1, if_neg hc2]
      rcases lt_trichotomy (hllc_as gam rhoL rhoR vxL vxR vyL vyR pL pR) 0
        with has | has | has
      · -- negative contact speed: original right star, mirrored left star
        have hcA : ¬ (hll_alm gam rhoL rhoR vxL vxR vyL vyR pL pR ≤ 0
            ∧ hllc_as gam rhoL rhoR vxL vxR vyL vyR pL pR ≥ 0) := by
          rintro ⟨-, hb⟩
          linarith
        have hcB : - hll_arp gam rhoL rhoR vxL vxR vyL vyR pL pR ≤ 0
            ∧ - hllc_as gam rhoL rhoR vxL vxR vyL vyR pL pR ≥ 0 :=
          ⟨by linarith, by linarith⟩
        rw [if_neg hcA, if_pos hcB]
        rw [(hllc_star_mirror gam rhoR vxR vyR pR
            (hll_arp gam rhoL rhoR vxL vxR vyL vyR pL pR)
            (hllc_as gam rhoL rhoR vxL vxR vyL vyR pL pR)).1,
          (hllc_star_mirror gam rhoR vxR vyR pR
            (hll_arp gam rhoL rhoR vxL vxR vyL vyR pL pR)
            (hllc_as gam rhoL rhoR vxL vxR vyL vyR pL pR)).2.1,
          (hllc_star_mirror gam rhoR vxR vyR pR
            (hll_arp gam rhoL rhoR vxL vxR vyL vyR pL pR)
            (hllc_as gam rhoL rhoR vxL vxR vyL vyR pL pR)).2.2]
        simp only [physFlux, consState]
        exact ⟨by ring, by ring, by ring⟩
      · -- vanishing contact speed: both sides take the left-star branch
        obtain ⟨halm_ne, harp_ne⟩ := hdeg has
        have halmneg : hll_alm gam rhoL rhoR vxL vxR vyL vyR pL pR < 0 :=
          lt_of_le_of_ne h1x halm_ne
        have harppos : 0 < hll_arp gam rhoL rhoR vxL vxR vyL vyR pL pR :=
          lt_of_le_of_ne h2x (Ne.symm harp_ne)
        have hnum : pR - pL
            + rhoL * vxL * (hll_alm gam rhoL rhoR vxL vxR vyL vyR pL pR - vxL)
            - rhoR * vxR * (hll_arp gam rhoL rhoR vxL vxR vyL vyR pL pR - vxR)
            = 0 := by
          have h := has
          simp only [hllc_as] at h
          rcases div_eq_zero_iff.mp h with hh | hh
          · exact hh
          · exact absurd hh (ne_of_lt hdenlt)
        rw [has, neg_zero]
        have hcA : hll_alm gam rhoL rhoR vxL vxR vyL vyR pL pR ≤ 0
            ∧ (0:ℝ) ≥ 0 := ⟨h1x, le_refl 0⟩
        have hcB : - hll_arp gam rhoL rhoR vxL vxR vyL vyR pL pR ≤ 0
            ∧ (0:ℝ) ≥ 0 := ⟨by linarith, le_refl 0⟩
        rw [if_pos hcA, if_pos hcB]
        have hBne : - hll_arp gam rhoL rhoR vxL vxR vyL vyR pL pR ≠ 0 := by
          intro hcon
          have : hll_arp gam rhoL rhoR vxL vxR vyL vyR pL pR = 0 := by
            linarith
          exact harp_ne this
        simp only [hllc_star, physFlux, consState, consE, sub_zero]
        refine ⟨?_, ?_, ?_⟩
        · field_simp [halm_ne, hBne]
          try ring
        · linear_combination hnum
        · field_simp [halm_ne, hBne]
          try ring
      · -- positive contact speed: original left star, mirrored right star
        have hcA : hll_alm gam rhoL rhoR vxL vxR vyL vyR pL pR ≤ 0
            ∧ hllc_as gam rhoL rhoR vxL vxR vyL vyR pL pR ≥ 0 :=
          ⟨h1x, le_of_lt has⟩
        have hcB : ¬ (- hll_arp gam rhoL rhoR vxL vxR vyL vyR pL pR ≤ 0
            ∧ - hllc_as gam rhoL rhoR vxL vxR vyL vyR pL pR ≥ 0) := by
          rintro ⟨-, hb⟩
          simp only [ge_iff_le, neg_nonneg] at hb
          linarith
        rw [if_pos hcA, if_neg hcB]
        rw [(hllc_star_mirror gam rhoL vxL vyL pL
            (hll_alm gam rhoL rhoR vxL vxR vyL vyR pL pR)
            (hllc_as gam rhoL rhoR vxL vxR vyL vyR pL pR)).1,
          (hllc_star_mirror gam rhoL vxL vyL pL
            (hll_alm gam rhoL rhoR vxL vxR vyL vyR pL pR)
            (hllc_as gam rhoL rhoR vxL vxR vyL vyR pL pR)).2.1,
          (hllc_star_mirror gam rhoL vxL vyL pL
            (hll_alm gam rhoL rhoR vxL vxR vyL vyR pL pR)
            (hllc_as gam rhoL rhoR vxL vxR vyL vyR pL pR)).2.2]
        simp only [physFlux, consState]
        exact ⟨by ring, by ring, by ring⟩

/-! ## Claim C4: mirror symmetry of the kernels -/

/-- C4 counterexample.  The claim asserts that swapping the states and
negating the velocities negates the momentum components of the flux.
This is false: at the admissible symmetric state rho = 1, vx = 1, vy = 0,
p = 1 (gam = 2), the central kernel returns normal-momentum flux 2 both
before and after the mirror transform, and 2 is not -2.  The correct
transformation law negates the mass and energy components and preserves
the momentum components. -/
theorem flux_cen_mirror_momentum_cex :
    ¬ ((flux_cen 2 1 1 (-(1:ℝ)) (-(1:ℝ)) (-(0:ℝ)) (-(0:ℝ)) 1 1).mx
        = - (flux_cen 2 1 1 1 1 0 0 1 1).mx) := by
  norm_num [flux_cen, physFlux]

set_option maxHeartbeats 400000 in
/-- C4.  Corrected mirror symmetry of the flux kernels: for every scheme
identifier in the recognized set other than AUSMDV, on admissible states
(rho > 0, p > 0 on both sides, gam > 1), swapping left and right states
and negating both velocity components negates the MASS component of the
flux and PRESERVES both momentum components (in the rotated frame the
energy component then also flips, being vx-odd).  The Godunov case
assumes the external exact Riemann solver itself respects the mirror
transform, and the HLLC case assumes the configuration is not degenerate
(vanishing contact speed together with a vanishing outer wave speed).
AUSMDV is excluded: its uMinus branch reads vxL where vxR is meant
(fluxCalculation.c line 670), which breaks the symmetry. -/
theorem convectiveFlux_mirror_symmetry (iFlux : Int) (riemann : RiemannSolver)
    (gam rhoL rhoR vxL vxR vyL vyR pL pR : ℝ) (fluxLoc : Vec4)
    (hmem : iFlux ∈ fluxSchemes) (hnz : iFlux ≠ AUSMDV)
    (hgam : 1 < gam) (hrL : 0 < rhoL) (hrR : 0 < rhoR)
    (hpL : 0 < pL) (hpR : 0 < pR)
    (hgod : iFlux = GOD →
      riemann rhoR rhoL (-vxR) (-vxL) pR pL
          (cSound gam rhoR pR) (cSound gam rhoL pL) 0
        = ((riemann rhoL rhoR vxL vxR pL pR
              (cSound gam rhoL pL) (cSound gam rhoR pR) 0).1,
           -(riemann rhoL rhoR vxL vxR pL pR
              (cSound gam rhoL pL) (cSound gam rhoR pR) 0).2.1,
           (riemann rhoL rhoR vxL vxR pL pR
              (cSound gam rhoL pL) (cSound gam rhoR pR) 0).2.2))
    (hhllc : iFlux = HLLC →
      (hllc_as gam rhoL rhoR vxL vxR vyL vyR pL pR = 0 →
        hll_alm gam rhoL rhoR vxL vxR vyL vyR pL pR ≠ 0
        ∧ hll_arp gam rhoL rhoR vxL vxR vyL vyR pL pR ≠ 0)) :
    (convectiveFlux iFlux riemann gam rhoR rhoL (-vxR) (-vxL) (-vyR) (-vyL)
        pR pL fluxLoc).rho
      = - (convectiveFlux iFlux riemann gam rhoL rhoR vxL vxR vyL vyR
        pL pR fluxLoc).rho
    ∧ (convectiveFlux iFlux riemann gam rhoR rhoL (-vxR) (-vxL) (-vyR) (-vyL)
        pR pL fluxLoc).mx
      = (convectiveFlux iFlux riemann gam rhoL rhoR vxL vxR vyL vyR
        pL pR fluxLoc).mx
    ∧ (convectiveFlux iFlux riemann gam rhoR rhoL (-vxR) (-vxL) (-vyR) (-vyL)
        pR pL fluxLoc).my
      = (convectiveFlux iFlux riemann gam rhoL rhoR vxL vxR vyL vyR
        pL pR fluxLoc).my := by
  simp only [fluxSchemes, List.mem_cons, List.not_mem_nil, or_false] at hmem
  rcases hmem with h | h | h | h | h | h | h | h | h | h | h
  · subst h
    simp only [convectiveFlux_god]
    exact flux_god_sym riemann gam rhoL rhoR vxL vxR vyL vyR pL pR (hgod rfl)
  · subst h
    simp only [convectiveFlux_roe]
    exact flux_roe_sym gam rhoL rhoR vxL vxR vyL vyR pL pR hgam hrL hrR hpL hpR
  · subst h
    simp only [convectiveFlux_hll]
    exact flux_hll_sym gam rhoL rhoR vxL vxR vyL vyR pL pR
  · subst h
    simp only [convectiveFlux_hlle]
    exact flux_hlle_sym gam rhoL rhoR vxL vxR vyL vyR pL pR
  · subst h
    simp only [convectiveFlux_hllc]
    exact flux_hllc_sym gam rhoL rhoR vxL vxR vyL vyR pL pR hgam hrL hrR
      hpL hpR (hhllc rfl)
  · subst h
    simp only [convectiveFlux_lxf]
    exact flux_lxf_sym gam rhoL rhoR vxL vxR vyL vyR pL pR
  · subst h
    simp only [convectiveFlux_stw]
    exact flux_stw_sym gam rhoL rhoR vxL vxR vyL vyR pL pR
  · subst h
    simp only [convectiveFlux_cen]
    exact flux_cen_sym gam rhoL rhoR vxL vxR vyL vyR pL pR
  · subst h
    simp only [convectiveFlux_ausmd]
    exact flux_ausmd_sym gam rhoL rhoR vxL vxR vyL vyR pL pR
  · exact absurd h hnz
  · subst h
    simp only [convectiveFlux_vanleer]
    exact flux_vanleer_sym gam rhoL rhoR vxL vxR vyL vyR pL pR

/-- Witness for C4: the central kernel identifier at an admissible
concrete state; the Godunov and HLLC side conditions are vacuous for
CEN. -/
theorem convectiveFlux_mirror_symmetry_witness :
    CEN ∈ fluxSchemes ∧ CEN ≠ AUSMDV ∧ (1:ℝ) < 2
    ∧ ((convectiveFlux CEN (fun _ _ _ _ _ _ _ _ _ => ((0:ℝ), (0:ℝ), (0:ℝ)))
          2 1 1 (-(4:ℝ)) (-(3:ℝ)) (-(6:ℝ)) (-(5:ℝ)) 1 1 ⟨0, 0, 0, 0⟩).rho
        = - (convectiveFlux CEN (fun _ _ _ _ _ _ _ _ _ => ((0:ℝ), (0:ℝ), (0:ℝ)))
          2 1 1 3 4 5 6 1 1 ⟨0, 0, 0, 0⟩).rho
      ∧ (convectiveFlux CEN (fun _ _ _ _ _ _ _ _ _ => ((0:ℝ), (0:ℝ), (0:ℝ)))
          2 1 1 (-(4:ℝ)) (-(3:ℝ)) (-(6:ℝ)) (-(5:ℝ)) 1 1 ⟨0, 0, 0, 0⟩).mx
        = (convectiveFlux CEN (fun _ _ _ _ _ _ _ _ _ => ((0:ℝ), (0:ℝ), (0:ℝ)))
          2 1 1 3 4 5 6 1 1 ⟨0, 0, 0, 0⟩).mx
      ∧ (convectiveFlux CEN (fun _ _ _ _ _ _ _ _ _ => ((0:ℝ), (0:ℝ), (0:ℝ)))
          2 1 1 (-(4:ℝ)) (-(3:ℝ)) (-(6:ℝ)) (-(5:ℝ)) 1 1 ⟨0, 0, 0, 0⟩).my
        = (convectiveFlux CEN (fun _ _ _ _ _ _ _ _ _ => ((0:ℝ), (0:ℝ), (0:ℝ)))
          2 1 1 3 4 5 6 1 1 ⟨0, 0, 0, 0⟩).my) :=
  ⟨by decide, by decide, by norm_num,
   convectiveFlux_mirror_symmetry CEN
     (fun _ _ _ _ _ _ _ _ _ => ((0:ℝ), (0:ℝ), (0:ℝ)))
     2 1 1 3 4 5 6 1 1 ⟨0, 0, 0, 0⟩ (by decide) (by decide)
     (by norm_num) (by norm_num) (by norm_num) (by norm_num) (by norm_num)
     (fun h => absurd h (by decide)) (fun h => absurd h (by decide))⟩

end Ccfd
